import Mathlib

/-! go-chat-app: the store helpers, the store adapter and the websocket origin check

A shallow embedding of `business/store/helpers.go`, `business/store/methods.go`
and of the `CheckOrigin` callback of `main.go`, followed by the theorems that
settle the claims C1 .. C10.

Conventions of the embedding:

* a Go `string` is a Lean `String` (text; invalid UTF-8 is not represented) and a
  `[]byte` holding text is represented by the string with the same bytes, because
  the conversions `[]byte(s)` and `string(b)` copy the bytes unchanged;
* a Go `int` / `int64` is an `Int`; the `int64` range is made explicit where the
  code depends on it (parsing a number into an `int64` field, converting a `float64`
  to `int64`, reading the clock);
* a Go `float64` is a `Float64`: a finite value (the rational it denotes), an infinity
  or a NaN;
* a value of type `any` is a `GoAny`; a run-time panic (failed type assertion,
  index out of range) is the `error` case of `Except Panic`;
* the clock and the outcome of every store command are inputs;
* `encoding/json` and the store (Redis with RedisJSON and RediSearch) are not part of
  the repository; they are modelled from their documented behaviour, as far as the
  adapter uses them.
-/

namespace ChatApp

/-! ## Dynamic values and panics -/

/-- A value of Go type `any` (`interface{}`), as far as its dynamic type matters to the
code: the nil interface, an `int64`, a `string`, a `[]any`, or a value of some other
dynamic type (named by its type name). -/
inductive GoAny where
  | nil
  | int64 (n : Int)
  | str (s : String)
  | slice (xs : List GoAny)
  | other (typeName : String)

/-- The two run-time panics the helpers can raise. -/
inductive Panic where
  | indexOutOfRange
  | typeAssertion
  deriving DecidableEq, Repr

deriving instance DecidableEq for Except

/-- Go `xs[i]`: panics when `i` is not a valid index. -/
def goIndex (xs : List GoAny) (i : Int) : Except Panic GoAny :=
  if 0 ≤ i then
    match xs.get? i.toNat with
    | some x => .ok x
    | none => .error .indexOutOfRange
  else .error .indexOutOfRange

/-- Go `x.([]any)`. -/
def assertSlice : GoAny → Except Panic (List GoAny)
  | .slice xs => .ok xs
  | _ => .error .typeAssertion

/-- Go `x.(string)`. -/
def assertString : GoAny → Except Panic String
  | .str s => .ok s
  | _ => .error .typeAssertion

/-- Go `x.(int64)`. -/
def assertInt64 : GoAny → Except Panic Int
  | .int64 n => .ok n
  | _ => .error .typeAssertion

/-! ## `helpers.go`: `Document` and `Deserialise` -/

/-- The struct `Document` of `helpers.go`. -/
structure Document where
  ID : String
  Payload : String
  Total : Int
  deriving DecidableEq, Repr

/-- The loop `for i := 1; i <= total; i = i + 2 { ... }` of `Deserialise`, with the loop
variable `i` and the slice `docs` as arguments. The natural number bounds the iterations
still to run; `Deserialise` passes `len(v)`, which is not exhausted while `i <= total`
(`deserialiseLoop_eq_pairs`). -/
def deserialiseLoop (v : List GoAny) (total : Int) :
    Nat → Int → List Document → Except Panic (List Document)
  | 0, _, docs => .ok docs
  | fuel + 1, i, docs =>
    if i ≤ total then do
      let arrOfValues ← assertSlice (← goIndex v (i + 1))
      let value ← assertString (← goIndex arrOfValues ((arrOfValues.length : Int) - 1))
      let doc : Document :=
        { ID := ← assertString (← goIndex v i)
          Payload := value
          Total := ← assertInt64 (← goIndex v 0) }
      deserialiseLoop v total fuel (i + 2) (docs ++ [doc])
    else .ok docs

/-- The function `Deserialise` of `helpers.go`. Both `return nil` and the returned empty
slice are the empty list. -/
def Deserialise (res : GoAny) : Except Panic (List Document) :=
  match res with
  | .slice v =>
    if v.length > 1 then
      deserialiseLoop v ((v.length : Int) - 1) v.length 1 []
    else .ok []
  | _ => .ok []

/-- One pass of the loop body of `Deserialise` over the elements that are still ahead of
the index `i`: `id` is `v[i]`, `fields` is `v[i+1]`, and `hd` is `v[0]`. Used to reason
about `deserialiseLoop`. -/
def deserialisePairs (hd : GoAny) : List GoAny → List Document → Except Panic (List Document)
  | [], docs => .ok docs
  | [_], _ => .error .indexOutOfRange
  | id :: fields :: rest, docs => do
    let arrOfValues ← assertSlice fields
    let value ← assertString (← goIndex arrOfValues ((arrOfValues.length : Int) - 1))
    let doc : Document :=
      { ID := ← assertString id
        Payload := value
        Total := ← assertInt64 hd }
    deserialisePairs hd rest (docs ++ [doc])

/-- A row of a search result: the document id, the leading elements of its field array,
and the string that is the last element of the field array. -/
structure SearchRow where
  id : String
  fieldsInit : List GoAny
  body : String

/-- The elements `id_1, fields_1, ..., id_k, fields_k` of a search result. -/
def rowElems : List SearchRow → List GoAny
  | [] => []
  | r :: rs => .str r.id :: .slice (r.fieldsInit ++ [.str r.body]) :: rowElems rs

/-- The search result `[total, id_1, fields_1, ..., id_k, fields_k]`. -/
def searchResult (total : Int) (rows : List SearchRow) : GoAny :=
  .slice (.int64 total :: rowElems rows)

/-- Whether a value is a field array of the well-formed shape: a non-empty sequence whose
last element is a string. -/
def fieldsShape : GoAny → Bool
  | .slice xs =>
    match xs.getLast? with
    | some (.str _) => true
    | _ => false
  | _ => false

/-- Whether a list is a sequence of (string id, well-formed field array) pairs. -/
def pairsShape : List GoAny → Bool
  | [] => true
  | .str _ :: fields :: rest => fieldsShape fields && pairsShape rest
  | _ => false

/-- Whether a raw result has the well-formed search-result shape
`[total, id_1, fields_1, ..., id_k, fields_k]` with `k >= 1`, `total` an `int64`, every
id a string and every field array non-empty with a string as its last element. -/
def wellFormedShape : GoAny → Bool
  | .slice (.int64 _ :: id :: rest) => pairsShape (id :: rest)
  | _ => false

/-- Whether a raw result is one on which `Deserialise` takes the empty-result path: it is
not a sequence, or it is a sequence of at most one element. -/
def shortOrNotSlice : GoAny → Bool
  | .slice xs => decide (xs.length ≤ 1)
  | _ => true

/-! ## The record `chat.Chat` -/

/-- Modelled from the spec: the struct `chat.Chat` of package `business/chat`, which is not
among the sources. The spec gives the fields `From`, `To`, `Body`, `Timestamp` (`int64`);
`DeserialiseChat` assigns the field `ID`; the search index of `methods.go` reads the JSON
members `from`, `to` and `timestamp`. The JSON members of `ID` and `Body` are taken to be
`id` and `body`. -/
structure Chat where
  ID : String
  From : String
  To : String
  Body : String
  Timestamp : Int
  deriving DecidableEq, Repr

/-- Go zero value of `chat.Chat` (`var c chat.Chat`). -/
def Chat.zero : Chat := { ID := "", From := "", To := "", Body := "", Timestamp := 0 }

/-- The range of Go `int64`. -/
def isInt64 (n : Int) : Prop := -9223372036854775808 ≤ n ∧ n ≤ 9223372036854775807

instance (n : Int) : Decidable (isInt64 n) := by unfold isInt64; infer_instance

/-! ## `encoding/json` (Go standard library), restricted to `chat.Chat`

The library is not part of the repository; the model follows its documented behaviour:
`Marshal` writes the members in field order with HTML-safe string escaping, `Unmarshal`
first checks that the whole input is one well-formed JSON value and then stores the members
of a top-level object field by field, skipping (and reporting) a member whose value does not
fit the field. -/

/-- Lower-case hexadecimal digit. -/
def hexChar (n : Nat) : Char := "0123456789abcdef".data.getD n '0'

/-- The JSON text `json.Marshal` writes for one character of a string (HTML escaping on).
Backspace and form feed are written as `\b` and `\f`, as since Go 1.22; earlier versions
write them as `\u0008` and `\u000c`, which `Unmarshal` decodes to the same characters. -/
def escapeRune (c : Char) : List Char :=
  if c = '"' ∨ c = '\\' then ['\\', c]
  else if c = Char.ofNat 8 then ['\\', 'b']
  else if c = Char.ofNat 12 then ['\\', 'f']
  else if c = '\n' then ['\\', 'n']
  else if c = '\r' then ['\\', 'r']
  else if c = '\t' then ['\\', 't']
  else if c.toNat < 32 ∨ c = '<' ∨ c = '>' ∨ c = '&' then
    ['\\', 'u', '0', '0', hexChar (c.toNat / 16), hexChar (c.toNat % 16)]
  else if c.toNat = 8232 ∨ c.toNat = 8233 then
    ['\\', 'u', '2', '0', '2', hexChar (c.toNat % 16)]
  else [c]

/-- The escaped content of a JSON string literal, without the enclosing quotes. -/
def escapeString : List Char → List Char
  | [] => []
  | c :: cs => escapeRune c ++ escapeString cs

/-- A JSON string literal. -/
def quoteString (s : String) : List Char := '"' :: (escapeString s.data ++ ['"'])

/-- Decimal text of an integer (`strconv.AppendInt(_, n, 10)`). -/
def formatInt (n : Int) : List Char :=
  if n < 0 then '-' :: Nat.toDigits 10 n.natAbs else Nat.toDigits 10 n.toNat

/-- The text of `json.Marshal(c)` for a `chat.Chat`. -/
def Marshal (c : Chat) : String :=
  String.mk
    ('{' :: ("\"id\":".data ++ quoteString c.ID
      ++ ",\"from\":".data ++ quoteString c.From
      ++ ",\"to\":".data ++ quoteString c.To
      ++ ",\"body\":".data ++ quoteString c.Body
      ++ ",\"timestamp\":".data ++ formatInt c.Timestamp ++ ['}']))

/-- A parsed JSON value; a number keeps its literal text. -/
inductive JValue where
  | null
  | bool (b : Bool)
  | number (lit : List Char)
  | string (s : List Char)
  | array (elems : List JValue)
  | object (members : List (List Char × JValue))

/-- JSON insignificant white space. -/
def isSpace (c : Char) : Bool := c = ' ' || c = '\t' || c = '\r' || c = '\n'

/-- Drop leading white space. -/
def skipSpace : List Char → List Char
  | [] => []
  | c :: cs => if isSpace c then skipSpace cs else c :: cs

/-- Value of a hexadecimal digit. -/
def hexVal (c : Char) : Option Nat :=
  if '0'.toNat ≤ c.toNat ∧ c.toNat ≤ '9'.toNat then some (c.toNat - '0'.toNat)
  else if 'a'.toNat ≤ c.toNat ∧ c.toNat ≤ 'f'.toNat then some (c.toNat - 'a'.toNat + 10)
  else if 'A'.toNat ≤ c.toNat ∧ c.toNat ≤ 'F'.toNat then some (c.toNat - 'A'.toNat + 10)
  else none

/-- The number written by four hexadecimal digits (`getu4`). -/
def getu4 (a b c d : Char) : Option Nat :=
  match hexVal a, hexVal b, hexVal c, hexVal d with
  | some x, some y, some z, some w => some (((x * 16 + y) * 16 + z) * 16 + w)
  | _, _, _, _ => none

/-- The character named by a single-letter escape. -/
def simpleEscape (e : Char) : Option Char :=
  if e = '"' then some '"'
  else if e = '\\' then some '\\'
  else if e = '/' then some '/'
  else if e = 'b' then some (Char.ofNat 8)
  else if e = 'f' then some (Char.ofNat 12)
  else if e = 'n' then some '\n'
  else if e = 'r' then some '\r'
  else if e = 't' then some '\t'
  else none

/-- Put decoded characters in front of the decoded remainder. -/
def consChars (cs : List Char) : Option (List Char × List Char) → Option (List Char × List Char)
  | some (s, rest) => some (cs ++ s, rest)
  | none => none

/-- The Unicode replacement character U+FFFD. -/
def replacementChar : Char := Char.ofNat 65533

/-- Whether a code unit is a UTF-16 high surrogate. -/
def isHighSurrogate (n : Nat) : Bool := decide (55296 ≤ n ∧ n < 56320)

/-- Whether a code unit is a UTF-16 low surrogate. -/
def isLowSurrogate (n : Nat) : Bool := decide (56320 ≤ n ∧ n < 57344)

/-- The characters to emit for a pending unpaired high surrogate, if there is one. -/
def flushPending : Option Nat → List Char
  | some _ => [replacementChar]
  | none => []

/-- Decoding of one `\uXXXX` escape with value `rr`, given the pending high surrogate (if the
preceding escape was one): the characters decoded so far and the new pending surrogate. A
high surrogate followed by a low one gives the code point of the pair (`utf16.DecodeRune`);
every unpaired surrogate gives U+FFFD. -/
def escapeStep (pending : Option Nat) (rr : Nat) : List Char × Option Nat :=
  match pending with
  | some hi =>
    if isLowSurrogate rr then
      ([Char.ofNat ((hi - 55296) * 1024 + (rr - 56320) + 65536)], none)
    else if isHighSurrogate rr then ([replacementChar], some rr)
    else ([replacementChar, Char.ofNat rr], none)
  | none =>
    if isHighSurrogate rr then ([], some rr)
    else if isLowSurrogate rr then ([replacementChar], none)
    else ([Char.ofNat rr], none)

/-- Read a JSON string literal after its opening quote: the decoded characters and the input
after the closing quote. Control characters and malformed escapes are syntax errors. The
first argument is the high surrogate of the escape just read, if it was one. -/
def unquoteFrom (pending : Option Nat) : List Char → Option (List Char × List Char)
  | [] => none
  | c :: cs =>
    if c = '"' then some (flushPending pending, cs)
    else if c = '\\' then
      match cs with
      | [] => none
      | e :: cs1 =>
        if e = 'u' then
          match cs1 with
          | a :: b :: c2 :: d :: cs2 =>
            match getu4 a b c2 d with
            | none => none
            | some rr =>
              consChars (escapeStep pending rr).1 (unquoteFrom (escapeStep pending rr).2 cs2)
          | _ => none
        else
          match simpleEscape e with
          | some ch => consChars (flushPending pending ++ [ch]) (unquoteFrom none cs1)
          | none => none
    else if c.toNat < 32 then none
    else consChars (flushPending pending ++ [c]) (unquoteFrom none cs)

/-- Read a JSON string literal after its opening quote. -/
def unquoteBody (cs : List Char) : Option (List Char × List Char) := unquoteFrom none cs

/-- Whether a character is a decimal digit. -/
def isDigit (c : Char) : Bool := decide ('0'.toNat ≤ c.toNat ∧ c.toNat ≤ '9'.toNat)

/-- Split off the leading decimal digits. -/
def takeDigits : List Char → List Char × List Char
  | [] => ([], [])
  | c :: cs =>
    if isDigit c then ((takeDigits cs).1.cons c, (takeDigits cs).2) else ([], c :: cs)

/-- Read the integer part of a JSON number: `0`, or a non-zero digit followed by digits. -/
def scanIntPart : List Char → Option (List Char × List Char)
  | [] => none
  | c :: cs =>
    if c = '0' then some (['0'], cs)
    else if isDigit c then some (c :: (takeDigits cs).1, (takeDigits cs).2)
    else none

/-- Read the optional fraction of a JSON number. -/
def scanFraction : List Char → Option (List Char × List Char)
  | [] => some ([], [])
  | c :: cs =>
    if c = '.' then
      if (takeDigits cs).1 = [] then none else some ('.' :: (takeDigits cs).1, (takeDigits cs).2)
    else some ([], c :: cs)

/-- Read the digits of an exponent. -/
def scanExpDigits (mark : List Char) (cs : List Char) : Option (List Char × List Char) :=
  if (takeDigits cs).1 = [] then none else some (mark ++ (takeDigits cs).1, (takeDigits cs).2)

/-- Read the optional exponent of a JSON number. -/
def scanExponent : List Char → Option (List Char × List Char)
  | [] => some ([], [])
  | c :: cs =>
    if c = 'e' ∨ c = 'E' then
      match cs with
      | [] => none
      | s :: cs1 =>
        if s = '+' ∨ s = '-' then scanExpDigits [c, s] cs1 else scanExpDigits [c] (s :: cs1)
    else some ([], c :: cs)

/-- Read a JSON number without its sign: the literal text and the input after it. -/
def scanUnsigned (cs : List Char) : Option (List Char × List Char) :=
  match scanIntPart cs with
  | none => none
  | some (ip, r1) =>
    match scanFraction r1 with
    | none => none
    | some (fp, r2) =>
      match scanExponent r2 with
      | none => none
      | some (ep, r3) => some (ip ++ fp ++ ep, r3)

/-- Read a JSON number: the literal text and the input after it. -/
def scanNumber : List Char → Option (List Char × List Char)
  | [] => none
  | c :: cs =>
    if c = '-' then
      match scanUnsigned cs with
      | some (lit, r) => some ('-' :: lit, r)
      | none => none
    else scanUnsigned (c :: cs)

/-- Read one of the literals `true`, `false`, `null`. -/
def scanLiteral : List Char → Option (JValue × List Char)
  | 't' :: 'r' :: 'u' :: 'e' :: rest => some (.bool true, rest)
  | 'f' :: 'a' :: 'l' :: 's' :: 'e' :: rest => some (.bool false, rest)
  | 'n' :: 'u' :: 'l' :: 'l' :: rest => some (.null, rest)
  | _ => none

/-- The deepest nesting of arrays and objects `encoding/json` accepts (`maxNestingDepth`);
a value nested deeper is a syntax error. -/
def maxNestingDepth : Nat := 10000

mutual

/-- Read one JSON value. `depth` is the number of arrays and objects that enclose the
value. The natural number bounds the nesting of the calls; `parseJSON` passes a bound that
is never reached (`parseJSON_fuel_independent`). -/
def parseValue (depth : Nat) : Nat → List Char → Option (JValue × List Char)
  | 0, _ => none
  | _, [] => none
  | fuel + 1, c :: cs =>
    if c = '"' then
      match unquoteBody cs with
      | some (s, rest) => some (.string s, rest)
      | none => none
    else if c = '{' then
      if depth < maxNestingDepth then
        match skipSpace cs with
        | [] => none
        | d :: rest =>
          if d = '}' then some (.object [], rest)
          else
            match parseMembers (depth + 1) fuel (d :: rest) with
            | some (ms, rest1) => some (.object ms, rest1)
            | none => none
      else none
    else if c = '[' then
      if depth < maxNestingDepth then
        match skipSpace cs with
        | [] => none
        | d :: rest =>
          if d = ']' then some (.array [], rest)
          else
            match parseElements (depth + 1) fuel (d :: rest) with
            | some (es, rest1) => some (.array es, rest1)
            | none => none
      else none
    else if c = '-' ∨ isDigit c then
      match scanNumber (c :: cs) with
      | some (lit, rest) => some (.number lit, rest)
      | none => none
    else scanLiteral (c :: cs)

/-- Read the members of a non-empty object, up to and including the closing brace. The
input starts at the first key; `depth` counts the object itself. -/
def parseMembers (depth : Nat) : Nat → List Char → Option (List (List Char × JValue) × List Char)
  | 0, _ => none
  | _, [] => none
  | fuel + 1, c :: cs =>
    if c = '"' then
      match unquoteBody cs with
      | none => none
      | some (key, r1) =>
        match skipSpace r1 with
        | [] => none
        | colon :: r2 =>
          if colon = ':' then
            match parseValue depth fuel (skipSpace r2) with
            | none => none
            | some (v, r3) =>
              match skipSpace r3 with
              | [] => none
              | sep :: r4 =>
                if sep = '}' then some ([(key, v)], r4)
                else if sep = ',' then
                  match parseMembers depth fuel (skipSpace r4) with
                  | some (ms, r5) => some ((key, v) :: ms, r5)
                  | none => none
                else none
          else none
    else none

/-- Read the elements of a non-empty array, up to and including the closing bracket. The
input starts at the first element; `depth` counts the array itself. -/
def parseElements (depth : Nat) : Nat → List Char → Option (List JValue × List Char)
  | 0, _ => none
  | fuel + 1, cs =>
    match parseValue depth fuel cs with
    | none => none
    | some (v, r1) =>
      match skipSpace r1 with
      | [] => none
      | sep :: r2 =>
        if sep = ']' then some ([v], r2)
        else if sep = ',' then
          match parseElements depth fuel (skipSpace r2) with
          | some (es, r3) => some (v :: es, r3)
          | none => none
        else none

end

/-- Parse a whole input as one JSON value surrounded by optional white space
(`checkValid` followed by the scan of the value). The bound on the nesting of the calls is
never reached: a call on `n` characters nests at most `2 * n + 2` deep. -/
def parseJSON (data : List Char) : Option JValue :=
  match parseValue 0 (2 * data.length + 2) (skipSpace data) with
  | some (v, rest) => if skipSpace rest = [] then some v else none
  | none => none

/-- The fields of `chat.Chat`. -/
inductive ChatField where
  | ID
  | From
  | To
  | Body
  | Timestamp
  deriving DecidableEq, Repr

/-- The JSON member name of every field, in field order. -/
def chatFields : List (List Char × ChatField) :=
  [("id".data, .ID), ("from".data, .From), ("to".data, .To), ("body".data, .Body),
   ("timestamp".data, .Timestamp)]

/-- Case folding of one character, as far as it decides equality with an ASCII name: the
ASCII letters fold to upper case, and so do U+017F (long s) and U+212A (Kelvin sign), the
only other characters whose simple case folding is an ASCII letter. -/
def foldRune (c : Char) : Char :=
  if 'a'.toNat ≤ c.toNat ∧ c.toNat ≤ 'z'.toNat then Char.ofNat (c.toNat - 32)
  else if c.toNat = 383 then 'S'
  else if c.toNat = 8490 then 'K'
  else c

/-- The field a member key selects: the field with exactly that name, else the field whose
name equals the key under case folding, else none (the member is skipped). -/
def findField (key : List Char) : Option ChatField :=
  match chatFields.find? (fun f => f.1 = key) with
  | some f => some f.2
  | none =>
    match chatFields.find? (fun f => f.1.map foldRune = key.map foldRune) with
    | some f => some f.2
    | none => none

/-- Value of a string of decimal digits. -/
def digitsValue (ds : List Char) : Nat :=
  ds.foldl (fun acc d => acc * 10 + (d.toNat - '0'.toNat)) 0

/-- The `int64` written by decimal digits with the given sign, if the digits are digits and
the value is in the `int64` range. -/
def intOfDigits (neg : Bool) (body : List Char) : Option Int :=
  if body ≠ [] ∧ body.all isDigit = true then
    if isInt64 (if neg then -(digitsValue body : Int) else (digitsValue body : Int)) then
      some (if neg then -(digitsValue body : Int) else (digitsValue body : Int))
    else none
  else none

/-- The value `strconv.ParseInt(lit, 10, 64)` gives for a JSON number literal, if any: the
literal must be an optional minus sign followed by digits only, and the value must be in the
`int64` range. -/
def parseInt64 : List Char → Option Int
  | [] => none
  | c :: cs => if c = '-' then intOfDigits true cs else intOfDigits false (c :: cs)

/-- The errors `json.Unmarshal` can return. -/
inductive UnmarshalError where
  | syntaxError
  | unmarshalTypeError
  deriving DecidableEq, Repr

/-- Store one member value into a field. A JSON `null` leaves the field unchanged; a value
that does not fit the field leaves it unchanged and is reported. The result is the record
and whether the value was rejected. -/
def storeField (c : Chat) (f : ChatField) (v : JValue) : Chat × Bool :=
  match v with
  | .null => (c, false)
  | .string s =>
    match f with
    | .ID => ({ c with ID := String.mk s }, false)
    | .From => ({ c with From := String.mk s }, false)
    | .To => ({ c with To := String.mk s }, false)
    | .Body => ({ c with Body := String.mk s }, false)
    | .Timestamp => (c, true)
  | .number lit =>
    match f with
    | .Timestamp =>
      match parseInt64 lit with
      | some n => ({ c with Timestamp := n }, false)
      | none => (c, true)
    | _ => (c, true)
  | _ => (c, true)

/-- Store the members of an object, in order; a later member overrides an earlier one, a
member without a field is skipped, and decoding continues after a rejected member. -/
def storeMembers : List (List Char × JValue) → Chat × Bool → Chat × Bool
  | [], acc => acc
  | (key, v) :: ms, (c, failed) =>
    match findField key with
    | none => storeMembers ms (c, failed)
    | some f => storeMembers ms ((storeField c f v).1, failed || (storeField c f v).2)

/-- The call `json.Unmarshal(data, &c)`: the record afterwards and the returned error. -/
def Unmarshal (data : String) (c : Chat) : Chat × Option UnmarshalError :=
  match parseJSON data.data with
  | none => (c, some .syntaxError)
  | some (.object members) =>
    ((storeMembers members (c, false)).1,
      if (storeMembers members (c, false)).2 then some .unmarshalTypeError else none)
  | some .null => (c, none)
  | some _ => (c, some .unmarshalTypeError)

/-! ## `helpers.go`: `DeserialiseChat` -/

/-- The body of the loop of `DeserialiseChat`: decode the payload into a zero `Chat`,
ignoring the error of `json.Unmarshal`, then set the `ID`. -/
def decodeDocument (doc : Document) : Chat :=
  { (Unmarshal doc.Payload Chat.zero).1 with ID := doc.ID }

/-- The function `DeserialiseChat` of `helpers.go`. -/
def DeserialiseChat : List Document → List Chat
  | [] => []
  | doc :: docs => decodeDocument doc :: DeserialiseChat docs

/-! ## `helpers.go`: keys and `DeserialiseContactList` -/

/-- A reading of the wall clock (`time.Now()`), given by its `UnixNano()` value: the
nanoseconds since the Unix epoch, an `int64`. -/
structure Time where
  nanos : Int
  nanosInt64 : isInt64 nanos

/-- Go `t.UnixMilli()`: whole milliseconds since the epoch. -/
def Time.UnixMilli (t : Time) : Int := t.nanos / 1000000

/-- Go `t.Unix()`: whole seconds since the epoch. -/
def Time.Unix (t : Time) : Int := t.nanos / 1000000000

/-- The function `chatKey` of `helpers.go`, with the clock reading as an argument:
`fmt.Sprintf("chat#%d", time.Now().UnixMilli())`. -/
def chatKey (now : Time) : String := "chat#" ++ String.mk (formatInt now.UnixMilli)

/-- The function `chatIndex` of `helpers.go`. -/
def chatIndex : String := "idx#chats"

/-- The function `contactListZKey` of `helpers.go`. -/
def contactListZKey (username : String) : String := "contacts:" ++ username

/-- Modelled from the spec: the struct `chat.ContactList` of package `business/chat`, which
is not among the sources: a username and the Unix time of the last activity. -/
structure ContactList where
  Username : String
  LastActivity : Int
  deriving DecidableEq, Repr

/-- A value of Go type `float64`: a finite value, represented by the rational number it
denotes, an infinity, or a NaN. -/
inductive Float64 where
  | finite (q : ℚ)
  | posInf
  | negInf
  | nan

/-- Go `a <= b` on `float64`. -/
def Float64.le : Float64 → Float64 → Bool
  | .finite a, .finite b => decide (a ≤ b)
  | .finite _, .posInf => true
  | .negInf, .finite _ => true
  | .negInf, .negInf => true
  | .negInf, .posInf => true
  | .posInf, .posInf => true
  | _, _ => false

/-- The struct `redis.Z` of the client library: a sorted-set member with its score. -/
structure Z where
  Score : Float64
  Member : GoAny

/-- A rational number truncated to an integer (rounded toward zero). -/
def truncTowardZero (q : ℚ) : Int := if 0 ≤ q then ⌊q⌋ else ⌈q⌉

/-- The smallest `int64`. -/
def minInt64 : Int := -9223372036854775808

/-- Go `int64(f)` for a `float64`: the value truncated toward zero when that is an `int64`.
For every other value (a finite value out of the `int64` range, an infinity, a NaN) the
language leaves the result to the implementation; the model takes what the gc compiler
gives on amd64, the smallest `int64`. -/
def int64OfFloat64 : Float64 → Int
  | .finite q => if isInt64 (truncTowardZero q) then truncTowardZero q else minInt64
  | _ => minInt64

/-- Whether a score is finite with its truncation in the `int64` range, the values on which
the language defines `int64(f)`. -/
def scoreInRange : Float64 → Bool
  | .finite q => decide (isInt64 (truncTowardZero q))
  | _ => false

/-- The function `DeserialiseContactList` of `helpers.go`. -/
def DeserialiseContactList : List Z → Except Panic (List ContactList)
  | [] => .ok []
  | contact :: contacts => do
    let entry : ContactList :=
      { Username := ← assertString contact.Member
        LastActivity := int64OfFloat64 contact.Score }
    let rest ← DeserialiseContactList contacts
    .ok (entry :: rest)

/-! ## The store

The Redis server with the RedisJSON and RediSearch modules, as far as the adapter uses it:
JSON documents by key, sorted sets by key, and the search index `idx#chats` over the
documents whose key starts with `chat#` (created once by `CreateFetchChatBetweenIndex`).
The outcome of a command, success or a transport/store failure, is an input; a failed
command leaves the store as it was. The sorted sets hold finite scores, as every score the
adapter writes is. -/

/-- A command that writes to the store. -/
inductive Command where
  | jsonSet (key path value : String)
  | zadd (key : String) (score : ℚ) (member : String)
  deriving DecidableEq

/-- An error returned by the client (connection lost, command rejected, ...). -/
structure StoreError where
  message : String
  deriving DecidableEq, Repr

/-- The state of the store, with the write commands the client has sent so far, oldest
first. -/
structure Redis where
  docs : List (String × String)
  zsets : List (String × List (String × ℚ))
  issued : List Command

/-- The empty store. -/
def Redis.empty : Redis := { docs := [], zsets := [], issued := [] }

/-- The value stored under a key, if any. -/
def lookupKey {α : Type} (kvs : List (String × α)) (key : String) : Option α :=
  match kvs with
  | [] => none
  | (k, v) :: rest => if k = key then some v else lookupKey rest key

/-- Store a value under a key, replacing the value the key had. -/
def storeKey {α : Type} (kvs : List (String × α)) (key : String) (v : α) : List (String × α) :=
  (key, v) :: kvs.filter (fun kv => kv.1 ≠ key)

/-- Effect of `JSON.SET key $ value`: the document under `key` is replaced. -/
def Redis.jsonSet (r : Redis) (key value : String) : Redis :=
  { r with docs := storeKey r.docs key value }

/-- The members of the sorted set under a key (none when the key does not exist). -/
def Redis.zset (r : Redis) (key : String) : List (String × ℚ) :=
  (lookupKey r.zsets key).getD []

/-- Effect of `ZADD key score member`: the member is added, or its score replaced. -/
def Redis.zadd (r : Redis) (key : String) (score : ℚ) (member : String) : Redis :=
  { r with zsets := storeKey r.zsets key (storeKey (r.zset key) member score) }

/-- Lexicographic order of two strings by character code. -/
def lexLE : List Char → List Char → Bool
  | [], _ => true
  | _ :: _, [] => false
  | a :: as, b :: bs => decide (a.toNat < b.toNat) || (decide (a.toNat = b.toNat) && lexLE as bs)

/-- The order of a reverse range over a sorted set: higher score first, and among equal
scores the lexicographically greater member first. -/
def zRevOrder (a b : String × ℚ) : Prop :=
  b.2 < a.2 ∨ (b.2 = a.2 ∧ lexLE b.1.data a.1.data = true)

instance : DecidableRel zRevOrder := fun a b => by unfold zRevOrder; infer_instance

/-- Reply to `ZRANGE key 0 -1 REV WITHSCORES`, as the client returns it: all members with
their scores, highest score first; every member is a string. -/
def Redis.zrangeRevWithScores (r : Redis) (key : String) : List Z :=
  ((r.zset key).insertionSort zRevOrder).map
    fun e => { Score := .finite e.2, Member := .str e.1 }

/-- One end of a numeric range filter: minus infinity, a number, or plus infinity. -/
inductive RangeValue where
  | negInf
  | num (n : Int)
  | posInf
  deriving DecidableEq

/-- One end of a numeric range filter with its kind: inclusive, or exclusive (written with
a leading parenthesis). -/
structure RangeEnd where
  value : RangeValue
  exclusive : Bool
  deriving DecidableEq

/-- Whether a timestamp is admitted by the lower end of a range. -/
def RangeEnd.admitsFrom (e : RangeEnd) (ts : Int) : Bool :=
  match e.value with
  | .negInf => true
  | .num n => if e.exclusive then decide (n < ts) else decide (n ≤ ts)
  | .posInf => false

/-- Whether a timestamp is admitted by the upper end of a range. -/
def RangeEnd.admitsUpTo (e : RangeEnd) (ts : Int) : Bool :=
  match e.value with
  | .negInf => false
  | .num n => if e.exclusive then decide (ts < n) else decide (ts ≤ n)
  | .posInf => true

/-- A search query of the form `@from:{tags} @to:{tags} @timestamp:[lo hi]`, as the filter
it denotes: the `from` tag and the `to` tag of a document are each one of the listed tags,
and its timestamp lies in the range. -/
structure ChatQuery where
  fromTags : List String
  toTags : List String
  lo : RangeEnd
  hi : RangeEnd
  deriving DecidableEq

/-- Remove the given leading characters, if the text starts with them. -/
def dropLeading : List Char → List Char → Option (List Char)
  | [], s => some s
  | _ :: _, [] => none
  | p :: ps, c :: cs => if p = c then dropLeading ps cs else none

/-- Split a text at the first occurrence of a character: the part before it and the part
after it; none when the character does not occur. -/
def splitAtFirst (stop : Char) : List Char → Option (List Char × List Char)
  | [] => none
  | c :: cs =>
    if c = stop then some ([], cs)
    else
      match splitAtFirst stop cs with
      | some (before, rest) => some (c :: before, rest)
      | none => none

/-- Split a text at every occurrence of a separator. -/
def splitOn (sep : Char) : List Char → List (List Char)
  | [] => [[]]
  | c :: cs =>
    if c = sep then [] :: splitOn sep cs
    else
      match splitOn sep cs with
      | [] => [[c]]
      | piece :: pieces => (c :: piece) :: pieces

/-- The tags of a tag list `tag|tag|...`; an empty tag is a syntax error. -/
def parseTags (text : List Char) : Option (List String) :=
  if (splitOn '|' text).all (fun t => t ≠ []) then some ((splitOn '|' text).map String.mk)
  else none

/-- The value of one end of a numeric range: `-inf`, `inf`, `+inf` or a decimal integer. -/
def parseRangeValue (text : List Char) : Option RangeValue :=
  if text = "-inf".data then some .negInf
  else if text = "inf".data ∨ text = "+inf".data then some .posInf
  else
    match parseInt64 text with
    | some n => some (.num n)
    | none => none

/-- One end of a numeric range; a leading parenthesis makes it exclusive. -/
def parseRangeEnd : List Char → Option RangeEnd
  | [] => none
  | c :: cs =>
    if c = '(' then
      match parseRangeValue cs with
      | some v => some { value := v, exclusive := true }
      | none => none
    else
      match parseRangeValue (c :: cs) with
      | some v => some { value := v, exclusive := false }
      | none => none

/-- The two ends of a numeric range `lo hi`, separated by spaces. -/
def parseRange (text : List Char) : Option (RangeEnd × RangeEnd) :=
  match (splitOn ' ' text).filter (fun t => t ≠ []) with
  | [lo, hi] =>
    match parseRangeEnd lo, parseRangeEnd hi with
    | some l, some h => some (l, h)
    | _, _ => none
  | _ => none

/-- The store reads a query text of the form `@from:{tags} @to:{tags} @timestamp:[lo hi]`:
the tag lists run to the next closing brace and are split at `|`, the range runs to the
next closing bracket. Tags are taken literally, and a range end is `-inf`, `inf`, `+inf`
or a decimal integer, optionally exclusive; a text of another form is answered with a
syntax error. -/
def parseQuery (text : String) : Option ChatQuery :=
  match dropLeading "@from:\x7b".data text.data with
  | none => none
  | some s1 =>
    match splitAtFirst '}' s1 with
    | none => none
    | some (fromText, s2) =>
      match dropLeading " @to:\x7b".data s2 with
      | none => none
      | some s3 =>
        match splitAtFirst '}' s3 with
        | none => none
        | some (toText, s4) =>
          match dropLeading " @timestamp:[".data s4 with
          | none => none
          | some s5 =>
            match splitAtFirst ']' s5 with
            | some (rangeText, []) =>
              match parseTags fromText, parseTags toText, parseRange rangeText with
              | some f, some t, some (lo, hi) =>
                some { fromTags := f, toTags := t, lo := lo, hi := hi }
              | _, _, _ => none
            | _ => none

/-- The value of the last member with the given name. -/
def memberValue (name : List Char) : List (List Char × JValue) → Option JValue
  | [] => none
  | (k, v) :: rest =>
    match memberValue name rest with
    | some w => some w
    | none => if k = name then some v else none

/-- What the index holds for a document: the strings at `$.from` and `$.to` and the
integer at `$.timestamp`; a document without these is not matched by the query. -/
def indexedFields (text : String) : Option (String × String × Int) :=
  match parseJSON text.data with
  | some (.object ms) =>
    match memberValue "from".data ms, memberValue "to".data ms, memberValue "timestamp".data ms with
    | some (.string f), some (.string t), some (.number lit) =>
      match parseInt64 lit with
      | some n => some (String.mk f, String.mk t, n)
      | none => none
    | _, _, _ => none
  | _ => none

/-- Whether a stored document is matched by a query. -/
def ChatQuery.matchesDoc (q : ChatQuery) (kv : String × String) : Bool :=
  "chat#".data.isPrefixOf kv.1.data &&
    match indexedFields kv.2 with
    | some (f, t, ts) =>
      decide (f ∈ q.fromTags) && decide (t ∈ q.toTags) && q.lo.admitsFrom ts && q.hi.admitsUpTo ts
    | none => false

/-- The indexed timestamp of a document (0 when it has none). -/
def docTimestamp (kv : String × String) : Int :=
  match indexedFields kv.2 with
  | some (_, _, ts) => ts
  | none => 0

/-- The page size of `FT.SEARCH` when the command has no `LIMIT` argument. -/
def defaultSearchLimit : Nat := 10

/-- The row of a search reply for one document: its key, then the field array (the sort
field with its value, then the path `$` with the JSON text of the document). -/
def searchRowOf (kv : String × String) : SearchRow :=
  { id := kv.1
    fieldsInit := [.str "timestamp", .str (String.mk (formatInt (docTimestamp kv))), .str "$"]
    body := kv.2 }

/-- The documents matched by a query, newest first. -/
def Redis.searchHits (r : Redis) (q : ChatQuery) : List (String × String) :=
  (r.docs.filter q.matchesDoc).insertionSort (fun a b => docTimestamp b ≤ docTimestamp a)

/-- Reply to a query the store has read: the number of matching documents, then the first
page of the matching documents, newest first. The store returns the JSON text it was
given. -/
def Redis.searchReply (r : Redis) (q : ChatQuery) : GoAny :=
  searchResult (r.searchHits q).length
    (((r.searchHits q).take defaultSearchLimit).map searchRowOf)

/-- Reply to `FT.SEARCH index query SORTBY timestamp DESC`, or none when the store answers
with an error: the index is not `idx#chats`, or the query text is not read. -/
def Redis.ftSearch (r : Redis) (index query : String) : Option GoAny :=
  if index = "idx#chats" then
    match parseQuery query with
    | some q => some (r.searchReply q)
    | none => none
  else none

/-! ## `methods.go`: the adapter `RedisCache` -/

/-- The method `UpdateContactList`: `ZADD contacts:{username} now contact`, where `now` is
the clock reading `time.Now().Unix()` and `outcome` the outcome of the command. The score
`float64(time.Now().Unix())` is exact: the seconds of a clock reading are far below 2^53. -/
def UpdateContactList (r : Redis) (now : Time) (outcome : Option StoreError)
    (username contact : String) : Redis × Option StoreError :=
  let sent : Redis :=
    { r with issued := r.issued ++ [.zadd (contactListZKey username) (now.Unix : ℚ) contact] }
  match outcome with
  | some err => (sent, some err)
  | none => (sent.zadd (contactListZKey username) (now.Unix : ℚ) contact, none)

/-- The inputs of one call of `CreateChat`: the clock reading of `chatKey()`, the outcome
of `JSON.SET`, and the clock reading and outcome of each of the two contact-list updates. -/
structure CreateChatInputs where
  keyTime : Time
  setOutcome : Option StoreError
  fromTime : Time
  fromOutcome : Option StoreError
  toTime : Time
  toOutcome : Option StoreError

/-- The method `CreateChat`: the store afterwards, the returned identifier and the returned
error. The argument `c` is the record the pointer refers to. -/
def CreateChat (r : Redis) (inp : CreateChatInputs) (c : Chat) :
    Redis × String × Option StoreError :=
  let chatKey := chatKey inp.keyTime
  let data := Marshal c
  let sent : Redis := { r with issued := r.issued ++ [.jsonSet chatKey "$" data] }
  match inp.setOutcome with
  | some err => (sent, "", some err)
  | none =>
    let r1 := sent.jsonSet chatKey data
    let r2 := (UpdateContactList r1 inp.fromTime inp.fromOutcome c.From c.To).1
    let r3 := (UpdateContactList r2 inp.toTime inp.toOutcome c.To c.From).1
    (r3, chatKey, none)

/-- The query text of `FetchChatBetween`:
`fmt.Sprintf("@from:{%s|%s} @to:{%s|%s} @timestamp:[%s %s]", username1, username2,
username1, username2, fromTS, toTS)`. -/
def queryText (username1 username2 fromTS toTS : String) : String :=
  "@from:\x7b" ++ username1 ++ "|" ++ username2 ++ "\x7d @to:\x7b" ++ username1 ++ "|"
    ++ username2 ++ "\x7d @timestamp:[" ++ fromTS ++ " " ++ toTS ++ "]"

/-- The method `FetchChatBetween`: the returned chats and error, or the panic raised by
`Deserialise`. The search fails when the command fails (`outcome`) or when the store answers
the query with an error. -/
def FetchChatBetween (r : Redis) (outcome : Option StoreError)
    (username1 username2 fromTS toTS : String) : Except Panic (List Chat × Option StoreError) :=
  let query := queryText username1 username2 fromTS toTS
  match outcome with
  | some err => .ok ([], some err)
  | none =>
    match r.ftSearch chatIndex query with
    | none => .ok ([], some { message := "Syntax error" })
    | some res => do
      let data ← Deserialise res
      .ok (DeserialiseChat data, none)

/-- The method `FetchContactList`: the returned contact list and error, or the panic raised
by `DeserialiseContactList`. -/
def FetchContactList (r : Redis) (outcome : Option StoreError) (username : String) :
    Except Panic (List ContactList × Option StoreError) :=
  match outcome with
  | some err => .ok ([], some err)
  | none => do
    let contacts ← DeserialiseContactList (r.zrangeRevWithScores (contactListZKey username))
    .ok (contacts, none)

/-! ## `main.go`: the origin check of the websocket upgrader -/

/-- The part of `http.Request` the origin check reads: the header fields (canonical name,
values) and the host. -/
structure Request where
  Header : List (String × List String)
  Host : String

/-- Go `r.Header.Get(key)`: the first value of the field, or the empty string. -/
def headerGet (h : List (String × List String)) (key : String) : String :=
  match lookupKey h key with
  | some (v :: _) => v
  | _ => ""

/-- The callback `upgrader.CheckOrigin` of `main.go`. -/
def CheckOrigin (r : Request) : Bool :=
  headerGet r.Header "Origin" == "http://localhost:8080" || r.Host == "localhost:8080"

/-! ## Concrete inputs used by the witnesses and counterexamples -/

/-- A chat from alice to bob with `Timestamp` 1000. -/
def chatAliceBob : Chat :=
  { ID := "", From := "alice", To := "bob", Body := "hi", Timestamp := 1000 }

/-- A chat from carol to dave with `Timestamp` 2000. -/
def chatCarolDave : Chat :=
  { ID := "", From := "carol", To := "dave", Body := "yo", Timestamp := 2000 }

/-- A chat alice sends to herself. -/
def chatAliceAlice : Chat :=
  { ID := "", From := "alice", To := "alice", Body := "note", Timestamp := 1000 }

/-- A call in which every command succeeds; the clock reads 1700000000.1230 s at
`chatKey()`, 1700000000.1231 s and 1700000000.1232 s at the contact-list updates. -/
def allSucceed : CreateChatInputs :=
  { keyTime := ⟨1700000000123000000, by decide⟩, setOutcome := none,
    fromTime := ⟨1700000000123100000, by decide⟩, fromOutcome := none,
    toTime := ⟨1700000000123200000, by decide⟩, toOutcome := none }

/-- A later call in which every command succeeds, begun 0.9 ms after the first: the clock
reads 1700000000.1239 s at `chatKey()`, still in the millisecond of the first call. -/
def allSucceedSameMilli : CreateChatInputs :=
  { keyTime := ⟨1700000000123900000, by decide⟩, setOutcome := none,
    fromTime := ⟨1700000000124000000, by decide⟩, fromOutcome := none,
    toTime := ⟨1700000000124100000, by decide⟩, toOutcome := none }

/-- A call in which the document write succeeds and both contact-list updates fail. -/
def updatesFail : CreateChatInputs :=
  { keyTime := ⟨1700000000123000000, by decide⟩, setOutcome := none,
    fromTime := ⟨1700000000123100000, by decide⟩,
    fromOutcome := some { message := "connection lost" },
    toTime := ⟨1700000000123200000, by decide⟩,
    toOutcome := some { message := "connection lost" } }

/-- A call in which the document write fails. -/
def writeFails : CreateChatInputs :=
  { keyTime := ⟨1700000000123000000, by decide⟩,
    setOutcome := some { message := "connection lost" },
    fromTime := ⟨1700000000123100000, by decide⟩, fromOutcome := none,
    toTime := ⟨1700000000123200000, by decide⟩, toOutcome := none }

/-- The search result `[1, id, ["$", json(c)]]`. -/
def singleResult (id : String) (c : Chat) : GoAny :=
  searchResult 1 [{ id := id, fieldsInit := [.str "$"], body := Marshal c }]

/-- A payload that is a JSON object whose `timestamp` member is a string. -/
def payloadWrongType : String := "\x7b\"from\":\"alice\",\"timestamp\":\"x\"\x7d"

/-- Whether a payload parses as a JSON object. -/
def isObjectPayload (payload : String) : Bool :=
  match parseJSON payload.data with
  | some (.object _) => true
  | _ => false

/-- Two sorted-set entries in descending score order, the first score (1e19) above the
`int64` range. -/
def contactsOutOfRange : List Z :=
  [{ Score := .finite 10000000000000000000, Member := .str "bob" },
   { Score := .finite 5, Member := .str "carol" }]

/-- Two sorted-set entries with string members, in descending score order. -/
def contactsInRange : List (String × Float64) :=
  [("bob", .finite 1700000300), ("carol", .finite 1700000000)]

/-- A request from another origin that names the server as its host. -/
def foreignRequest : Request :=
  { Header := [("Origin", ["http://evil.example"])], Host := "localhost:8080" }

/-! ## Auxiliary notions used in the proofs -/

/-- A list of characters is the decimal text of a number: non-empty, all digits, of that
value, and without a leading zero unless the number is zero. -/
def DecimalOf (n : Nat) (l : List Char) : Prop :=
  l ≠ [] ∧ l.all isDigit = true ∧ digitsValue l = n ∧ (n = 0 → l = ['0']) ∧
    (n ≠ 0 → ∃ d ds, l = d :: ds ∧ d ≠ '0')

/-- The characters that may follow the number in the output of `Marshal`. -/
def EndsNumber (c : Char) : Prop :=
  isDigit c = false ∧ c ≠ '.' ∧ c ≠ 'e' ∧ c ≠ 'E'

/-- The members `json.Marshal` writes for a `Chat`, as parsed JSON. -/
def chatMembers (c : Chat) : List (List Char × JValue) :=
  [("id".data, .string c.ID.data), ("from".data, .string c.From.data),
   ("to".data, .string c.To.data), ("body".data, .string c.Body.data),
   ("timestamp".data, .number (formatInt c.Timestamp))]

/-! # Theorems -/

/-! ### `Deserialise`: the loop as a pass over pairs -/

theorem goIndex_append_cons (l1 : List GoAny) (x : GoAny) (l2 : List GoAny) (i : Int)
    (hi : i = (l1.length : Int)) : goIndex (l1 ++ x :: l2) i = .ok x := by
  subst hi
  have h : (l1 ++ x :: l2)[l1.length]? = some x := by
    rw [List.getElem?_append_right (le_refl _)]
    simp
  simp [goIndex, h]

theorem goIndex_out_of_range (l : List GoAny) (i : Int) (hi : (l.length : Int) ≤ i) :
    goIndex l i = .error .indexOutOfRange := by
  unfold goIndex
  have h0 : (0 : Int) ≤ i := le_trans (Int.ofNat_nonneg _) hi
  have h1 : l.length ≤ i.toNat := by omega
  have h2 : l[i.toNat]? = none := List.getElem?_eq_none h1
  simp [h0, h2]

theorem goIndex_zero_cons (x : GoAny) (l : List GoAny) : goIndex (x :: l) 0 = .ok x := by
  simp [goIndex]

theorem deserialiseLoop_eq_pairs (hd : GoAny) :
    ∀ (fuel : Nat) (suf pre : List GoAny) (docs : List Document),
      suf.length ≤ 2 * fuel →
      deserialiseLoop (hd :: pre ++ suf) (((hd :: pre ++ suf).length : Int) - 1) fuel
          ((pre.length : Int) + 1) docs
        = deserialisePairs hd suf docs := by
  intro fuel
  induction fuel with
  | zero =>
    intro suf pre docs h
    have : suf = [] := List.length_eq_zero.mp (by omega)
    subst this
    simp [deserialiseLoop, deserialisePairs]
  | succ fuel ih =>
    intro suf pre docs h
    match suf, h with
    | [], _ =>
      simp [deserialiseLoop, deserialisePairs]
    | [x], _ =>
      have hidx : goIndex (hd :: pre ++ [x]) ((pre.length : Int) + 1 + 1) = .error .indexOutOfRange := by
        apply goIndex_out_of_range
        simp
      simp only [deserialiseLoop, deserialisePairs, hidx]
      simp
      rfl
    | id :: fields :: rest, h =>
      have h1 : goIndex (hd :: pre ++ id :: fields :: rest) ((pre.length : Int) + 1 + 1) = .ok fields := by
        have := goIndex_append_cons (hd :: pre ++ [id]) fields rest ((pre.length : Int) + 1 + 1) (by simp)
        simpa using this
      have h2 : goIndex (hd :: pre ++ id :: fields :: rest) ((pre.length : Int) + 1) = .ok id := by
        have := goIndex_append_cons (hd :: pre) id (fields :: rest) ((pre.length : Int) + 1) (by simp)
        simpa using this
      have h3 : goIndex (hd :: pre ++ id :: fields :: rest) 0 = .ok hd := goIndex_zero_cons _ _
      have hrec := fun docs => ih rest (pre ++ [id, fields]) docs (by simp at h; omega)
      have hl : hd :: (pre ++ [id, fields]) ++ rest = hd :: pre ++ id :: fields :: rest := by simp
      have hi : (((pre ++ [id, fields]).length : Int) + 1) = (pre.length : Int) + 1 + 2 := by
        simp; ring
      rw [hl, hi] at hrec
      have hcond : (pre.length : Int) + 1 ≤ (((hd :: pre ++ id :: fields :: rest).length : Int) - 1) := by
        simp; omega
      generalize (((hd :: pre ++ id :: fields :: rest).length : Int) - 1) = T at hrec hcond ⊢
      generalize hd :: pre ++ id :: fields :: rest = v at hrec h1 h2 h3 ⊢
      simp only [deserialiseLoop, deserialisePairs, hcond, if_true, h1, h2, h3, hrec, bind,
        Except.bind, pure, Except.pure]

theorem Deserialise_slice_cons (hd x : GoAny) (rest : List GoAny) :
    Deserialise (.slice (hd :: x :: rest)) = deserialisePairs hd (x :: rest) [] := by
  have h := deserialiseLoop_eq_pairs hd (hd :: x :: rest).length (x :: rest) [] [] (by simp; omega)
  simp only [List.append_nil, List.nil_append, List.length_nil, Nat.cast_zero, zero_add,
    List.singleton_append] at h
  simp only [Deserialise]
  rw [if_pos (by simp)]
  exact h

theorem list_nil_or_snoc (xs : List GoAny) : xs = [] ∨ ∃ init x, xs = init ++ [x] := by
  rcases List.eq_nil_or_concat xs with h | ⟨init, x, h⟩
  · exact Or.inl h
  · exact Or.inr ⟨init, x, by rw [h, List.concat_eq_append]⟩

theorem goIndex_last (init : List GoAny) (x : GoAny) :
    goIndex (init ++ [x]) ((((init ++ [x]).length : Nat) : Int) - 1) = .ok x := by
  apply goIndex_append_cons
  simp

theorem deserialisePairs_rowElems (total : Int) :
    ∀ (rows : List SearchRow) (docs : List Document),
      deserialisePairs (.int64 total) (rowElems rows) docs
        = .ok (docs ++ rows.map fun r => { ID := r.id, Payload := r.body, Total := total }) := by
  intro rows
  induction rows with
  | nil => intro docs; simp [rowElems, deserialisePairs]
  | cons r rs ih =>
    intro docs
    simp only [rowElems, deserialisePairs, assertSlice, assertString, assertInt64, goIndex_last,
      bind, Except.bind, pure, Except.pure, ih]
    simp

theorem fieldsShape_false_fault (hd id fields : GoAny) (rest : List GoAny) (docs : List Document)
    (h : fieldsShape fields = false) :
    ∃ p, deserialisePairs hd (id :: fields :: rest) docs = .error p := by
  cases fields with
  | slice xs =>
    rcases list_nil_or_snoc xs with hnil | ⟨init, x, hx⟩
    · subst hnil
      exact ⟨.indexOutOfRange, by simp [deserialisePairs, assertSlice, goIndex, bind, Except.bind]⟩
    · subst hx
      have hl := goIndex_last init x
      cases x <;>
        first
        | (exfalso; simp [fieldsShape] at h; done)
        | exact ⟨.typeAssertion, by
            simp only [deserialisePairs, assertSlice, hl, assertString, bind, Except.bind, pure,
              Except.pure]⟩
  | _ => exact ⟨.typeAssertion, by simp [deserialisePairs, assertSlice, bind, Except.bind]⟩

theorem pairsShape_false_fault (hd : GoAny) :
    ∀ (suf : List GoAny) (docs : List Document), pairsShape suf = false →
      ∃ p, deserialisePairs hd suf docs = .error p
  | [], _, h => by simp [pairsShape] at h
  | [_], _, _ => ⟨.indexOutOfRange, by simp [deserialisePairs]⟩
  | id :: fields :: rest, docs, h => by
    by_cases hf : fieldsShape fields = true
    · cases id with
      | str s =>
        have hrest : pairsShape rest = false := by
          simp [pairsShape, hf] at h
          exact h
        cases fields with
        | slice xs =>
          rcases list_nil_or_snoc xs with hnil | ⟨init, x, hx⟩
          · subst hnil; simp [fieldsShape] at hf
          · subst hx
            have hl := goIndex_last init x
            cases x with
            | str b =>
              cases hd with
              | int64 n =>
                obtain ⟨p, hp⟩ := pairsShape_false_fault (.int64 n) rest
                  (docs ++ [{ ID := s, Payload := b, Total := n }]) hrest
                exact ⟨p, by
                  simp only [deserialisePairs, assertSlice, hl, assertString, assertInt64, bind,
                    Except.bind, pure, Except.pure, hp]⟩
              | _ =>
                exact ⟨.typeAssertion, by
                  simp only [deserialisePairs, assertSlice, hl, assertString, assertInt64, bind,
                    Except.bind, pure, Except.pure]⟩
            | _ => simp [fieldsShape] at hf
        | _ => simp [fieldsShape] at hf
      | _ =>
        cases fields with
        | slice xs =>
          rcases list_nil_or_snoc xs with hnil | ⟨init, x, hx⟩
          · subst hnil; simp [fieldsShape] at hf
          · subst hx
            have hl := goIndex_last init x
            cases x with
            | str b =>
              exact ⟨.typeAssertion, by
                simp only [deserialisePairs, assertSlice, hl, assertString, bind,
                  Except.bind, pure, Except.pure]⟩
            | _ => simp [fieldsShape] at hf
        | _ => simp [fieldsShape] at hf
    · exact fieldsShape_false_fault hd id fields rest docs (by simpa using hf)

theorem not_int64_fault (hd id fields : GoAny) (rest : List GoAny) (docs : List Document)
    (h : ∀ n, hd ≠ .int64 n) :
    ∃ p, deserialisePairs hd (id :: fields :: rest) docs = .error p := by
  cases hd with
  | int64 n => exact absurd rfl (h n)
  | _ =>
    simp only [deserialisePairs, assertInt64, bind, Except.bind, pure, Except.pure]
    all_goals
      cases assertSlice fields with
      | error e => exact ⟨e, rfl⟩
      | ok arr =>
        simp only []
        cases goIndex arr ((arr.length : Int) - 1) with
        | error e => exact ⟨e, rfl⟩
        | ok v =>
          simp only []
          cases assertString v with
          | error e => exact ⟨e, rfl⟩
          | ok v =>
            simp only []
            cases assertString id with
            | error e => exact ⟨e, rfl⟩
            | ok v => exact ⟨_, rfl⟩

/-! ### Strings: `unquoteFrom` inverts `escapeString` -/

theorem getu4_low (n : Nat) (h : n < 128) :
    getu4 '0' '0' (hexChar (n / 16)) (hexChar (n % 16)) = some n := by
  revert n
  decide

theorem escapeStep_plain (n : Nat) (h : n < 55296) :
    escapeStep none n = ([Char.ofNat n], none) := by
  have h1 : isHighSurrogate n = false := by simp [isHighSurrogate]; omega
  have h2 : isLowSurrogate n = false := by simp [isLowSurrogate]; omega
  simp [escapeStep, h1, h2]

theorem unquoteFrom_simple (e ch : Char) (tail : List Char) (h : simpleEscape e = some ch)
    (he : e ≠ 'u') :
    unquoteFrom none ('\\' :: e :: tail) = consChars [ch] (unquoteFrom none tail) := by
  have hq : ('\\' : Char) ≠ '"' := by decide
  conv_lhs => unfold unquoteFrom
  simp only [if_neg hq, if_true, if_neg he, h, flushPending, List.nil_append]

theorem unquoteFrom_plain (c : Char) (tail : List Char) (h1 : c ≠ '"') (h2 : c ≠ '\\')
    (h3 : ¬ c.toNat < 32) :
    unquoteFrom none (c :: tail) = consChars [c] (unquoteFrom none tail) := by
  conv_lhs => unfold unquoteFrom
  simp only [if_neg h1, if_neg h2, if_neg h3, flushPending, List.nil_append]

theorem unquoteFrom_u (a b c d : Char) (n : Nat) (tail : List Char)
    (h : getu4 a b c d = some n) (hn : n < 55296) :
    unquoteFrom none ('\\' :: 'u' :: a :: b :: c :: d :: tail)
      = consChars [Char.ofNat n] (unquoteFrom none tail) := by
  have hq : ('\\' : Char) ≠ '"' := by decide
  conv_lhs => unfold unquoteFrom
  simp only [if_neg hq, if_true, h, escapeStep_plain n hn]

theorem unquoteFrom_quote (tail : List Char) :
    unquoteFrom none ('"' :: tail) = some ([], tail) := by
  conv_lhs => unfold unquoteFrom
  simp only [if_true, flushPending]

theorem unquoteFrom_escapeRune (c : Char) (tail : List Char) :
    unquoteFrom none (escapeRune c ++ tail) = consChars [c] (unquoteFrom none tail) := by
  unfold escapeRune
  by_cases h1 : c = '"' ∨ c = '\\'
  · rw [if_pos h1]
    rcases h1 with h | h <;> subst h
    · exact unquoteFrom_simple _ _ tail (by decide) (by decide)
    · exact unquoteFrom_simple _ _ tail (by decide) (by decide)
  rw [if_neg h1]
  by_cases h2 : c = Char.ofNat 8
  · subst h2; exact unquoteFrom_simple _ _ tail (by decide) (by decide)
  rw [if_neg h2]
  by_cases h3 : c = Char.ofNat 12
  · subst h3; exact unquoteFrom_simple _ _ tail (by decide) (by decide)
  rw [if_neg h3]
  by_cases h4 : c = '\n'
  · subst h4; exact unquoteFrom_simple _ _ tail (by decide) (by decide)
  rw [if_neg h4]
  by_cases h5 : c = '\r'
  · subst h5; exact unquoteFrom_simple _ _ tail (by decide) (by decide)
  rw [if_neg h5]
  by_cases h6 : c = '\t'
  · subst h6; exact unquoteFrom_simple _ _ tail (by decide) (by decide)
  rw [if_neg h6]
  by_cases h7 : c.toNat < 32 ∨ c = '<' ∨ c = '>' ∨ c = '&'
  · rw [if_pos h7]
    have hlt : c.toNat < 128 := by
      rcases h7 with h | h | h | h
      · omega
      · subst h; decide
      · subst h; decide
      · subst h; decide
    have h := unquoteFrom_u '0' '0' (hexChar (c.toNat / 16)) (hexChar (c.toNat % 16)) c.toNat tail
      (getu4_low c.toNat hlt) (by omega)
    rw [Char.ofNat_toNat] at h
    exact h
  rw [if_neg h7]
  by_cases h8 : c.toNat = 8232 ∨ c.toNat = 8233
  · rw [if_pos h8]
    rcases h8 with h | h
    · have hc : c = Char.ofNat 8232 := by rw [← h, Char.ofNat_toNat]
      subst hc
      exact unquoteFrom_u '2' '0' '2' _ 8232 tail (by decide) (by omega)
    · have hc : c = Char.ofNat 8233 := by rw [← h, Char.ofNat_toNat]
      subst hc
      exact unquoteFrom_u '2' '0' '2' _ 8233 tail (by decide) (by omega)
  rw [if_neg h8]
  push_neg at h1 h7
  exact unquoteFrom_plain c tail h1.1 h1.2 (by omega)

theorem unquoteFrom_escapeString (s tail : List Char) :
    unquoteFrom none (escapeString s ++ '"' :: tail) = some (s, tail) := by
  induction s with
  | nil => exact unquoteFrom_quote tail
  | cons c cs ih =>
    simp only [escapeString, List.append_assoc]
    rw [unquoteFrom_escapeRune, ih]
    rfl

/-! ### Numbers: `scanNumber` and `parseInt64` invert `formatInt` -/

theorem digitChar_facts (k : Nat) (h : k < 10) :
    isDigit (Nat.digitChar k) = true ∧ (Nat.digitChar k).toNat - '0'.toNat = k ∧
      (k ≠ 0 → Nat.digitChar k ≠ '0') ∧ Nat.digitChar 0 = '0' := by
  revert k
  decide

theorem digitsValue_append (l : List Char) (d : Char) :
    digitsValue (l ++ [d]) = digitsValue l * 10 + (d.toNat - '0'.toNat) := by
  simp [digitsValue, List.foldl_append]

theorem toDigitsCore_spec :
    ∀ (fuel n : Nat) (ds : List Char), n < fuel →
      ∃ l, Nat.toDigitsCore 10 fuel n ds = l ++ ds ∧ DecimalOf n l := by
  intro fuel
  induction fuel with
  | zero => intro n ds h; omega
  | succ fuel ih =>
    intro n ds h
    have hd := digitChar_facts (n % 10) (Nat.mod_lt _ (by omega))
    simp only [Nat.toDigitsCore]
    by_cases h0 : n / 10 = 0
    · rw [if_pos h0]
      have hn : n % 10 = n := by omega
      refine ⟨[Nat.digitChar (n % 10)], rfl, by simp, by simp [hd.1], ?_, ?_, ?_⟩
      · have := hd.2.1
        simp only [digitsValue, List.foldl_cons, List.foldl_nil, Nat.zero_mul, Nat.zero_add]
        rw [this, hn]
      · intro hz
        have : n % 10 = 0 := by omega
        rw [this, hd.2.2.2]
      · intro hz
        exact ⟨_, [], rfl, hd.2.2.1 (by omega)⟩
    · rw [if_neg h0]
      obtain ⟨l, hl, hne, hall, hval, _, hhead⟩ :=
        ih (n / 10) (Nat.digitChar (n % 10) :: ds) (by omega)
      refine ⟨l ++ [Nat.digitChar (n % 10)], by simp [hl], by simp, ?_, ?_, ?_, ?_⟩
      · simp [List.all_append, hall, hd.1]
      · rw [digitsValue_append, hval, hd.2.1]; omega
      · intro hz; omega
      · intro _
        obtain ⟨d, ds2, hds, hd0⟩ := hhead h0
        exact ⟨d, ds2 ++ [Nat.digitChar (n % 10)], by simp [hds], hd0⟩

theorem toDigits_spec (n : Nat) : DecimalOf n (Nat.toDigits 10 n) := by
  obtain ⟨l, hl, h⟩ := toDigitsCore_spec (n + 1) n [] (by omega)
  simp only [List.append_nil] at hl
  unfold Nat.toDigits
  rw [hl]
  exact h

theorem takeDigits_append (l : List Char) (c : Char) (rest : List Char)
    (hl : l.all isDigit = true) (hc : isDigit c = false) :
    takeDigits (l ++ c :: rest) = (l, c :: rest) := by
  induction l with
  | nil => simp [takeDigits, hc]
  | cons d ds ih =>
    simp only [List.all_cons, Bool.and_eq_true] at hl
    simp [takeDigits, hl.1, ih hl.2]

theorem isDigit_ne (d c : Char) (hd : isDigit d = true) (hc : isDigit c = false) : d ≠ c := by
  intro h; subst h; rw [hd] at hc; cases hc

theorem scanUnsigned_decimal (n : Nat) (l : List Char) (h : DecimalOf n l) (c : Char)
    (rest : List Char) (hc : EndsNumber c) :
    scanUnsigned (l ++ c :: rest) = some (l, c :: rest) := by
  obtain ⟨hne, hall, _, hzero, hpos⟩ := h
  obtain ⟨hcd, hc1, hc2, hc3⟩ := hc
  have htail : scanFraction (c :: rest) = some ([], c :: rest) := by
    simp [scanFraction, hc1]
  have hexp : scanExponent (c :: rest) = some ([], c :: rest) := by
    simp [scanExponent, hc2, hc3]
  by_cases hn : n = 0
  · rw [hzero hn]
    simp [scanUnsigned, scanIntPart, htail, hexp]
  · obtain ⟨d, ds, hl, hd0⟩ := hpos hn
    subst hl
    simp only [List.all_cons, Bool.and_eq_true] at hall
    have ht := takeDigits_append ds c rest hall.2 hcd
    simp [scanUnsigned, scanIntPart, hd0, hall.1, ht, htail, hexp]

theorem formatInt_neg (n : Int) (h : n < 0) :
    formatInt n = '-' :: Nat.toDigits 10 n.natAbs := by simp [formatInt, h]

theorem formatInt_nonneg (n : Int) (h : ¬ n < 0) :
    formatInt n = Nat.toDigits 10 n.toNat := by simp [formatInt, h]

theorem scanNumber_formatInt (n : Int) (c : Char) (rest : List Char) (hc : EndsNumber c) :
    scanNumber (formatInt n ++ c :: rest) = some (formatInt n, c :: rest) := by
  by_cases h : n < 0
  · rw [formatInt_neg n h]
    have := scanUnsigned_decimal _ _ (toDigits_spec n.natAbs) c rest hc
    simp [scanNumber, this]
  · rw [formatInt_nonneg n h]
    have hs := toDigits_spec n.toNat
    have := scanUnsigned_decimal _ _ hs c rest hc
    obtain ⟨hne, hall, _, _, _⟩ := hs
    match hl : Nat.toDigits 10 n.toNat, hne, hall with
    | d :: ds, _, hall =>
      rw [hl] at this
      simp only [List.all_cons, Bool.and_eq_true] at hall
      have hd : d ≠ '-' := isDigit_ne d '-' hall.1 (by decide)
      simp only [List.cons_append] at this ⊢
      simp only [scanNumber, if_neg hd]
      exact this

theorem formatInt_head (n : Int) :
    ∃ d ds, formatInt n = d :: ds ∧ (d = '-' ∨ isDigit d = true) := by
  by_cases h : n < 0
  · exact ⟨'-', _, formatInt_neg n h, Or.inl rfl⟩
  · rw [formatInt_nonneg n h]
    obtain ⟨hne, hall, _, _, _⟩ := toDigits_spec n.toNat
    match hl : Nat.toDigits 10 n.toNat, hne, hall with
    | d :: ds, _, hall =>
      simp only [List.all_cons, Bool.and_eq_true] at hall
      exact ⟨d, ds, rfl, Or.inr hall.1⟩

theorem parseInt64_formatInt (n : Int) (hn : isInt64 n) : parseInt64 (formatInt n) = some n := by
  by_cases h : n < 0
  · rw [formatInt_neg n h]
    obtain ⟨hne, hall, hval, _, _⟩ := toDigits_spec n.natAbs
    have hv : -((digitsValue (Nat.toDigits 10 n.natAbs) : Nat) : Int) = n := by
      rw [hval]; omega
    simp only [parseInt64, intOfDigits, ne_eq, hne, not_false_eq_true, hall, and_self, if_true,
      hv, hn]
  · rw [formatInt_nonneg n h]
    obtain ⟨hne, hall, hval, _, _⟩ := toDigits_spec n.toNat
    match hl : Nat.toDigits 10 n.toNat, hne, hall, hval with
    | d :: ds, hne, hall, hval =>
      have hd : d ≠ '-' := by
        simp only [List.all_cons, Bool.and_eq_true] at hall
        exact isDigit_ne d '-' hall.1 (by decide)
      have hv : ((digitsValue (d :: ds) : Nat) : Int) = n := by
        rw [hval]; omega
      simp only [parseInt64, if_neg hd, intOfDigits, ne_eq, hne, not_false_eq_true, hall,
        and_self, if_true, hv, hn, Bool.false_eq_true, if_false]

/-! ### Values and members -/

theorem skipSpace_cons (c : Char) (cs : List Char) (h : isSpace c = false) :
    skipSpace (c :: cs) = c :: cs := by
  simp [skipSpace, h]

theorem parseValue_string (depth fuel : Nat) (s rest : List Char) :
    parseValue depth (fuel + 1) ('"' :: (escapeString s ++ '"' :: rest)) = some (.string s, rest) := by
  have h := unquoteFrom_escapeString s rest
  simp only [parseValue, if_true, unquoteBody, h]

theorem parseValue_number (depth fuel : Nat) (n : Int) (c : Char) (rest : List Char)
    (hc : EndsNumber c) :
    parseValue depth (fuel + 1) (formatInt n ++ c :: rest) = some (.number (formatInt n), c :: rest) := by
  have h := scanNumber_formatInt n c rest hc
  obtain ⟨d, ds, hf, hd⟩ := formatInt_head n
  rw [hf] at h ⊢
  simp only [List.cons_append] at h ⊢
  have h1 : d ≠ '"' := by
    rcases hd with hd | hd
    · subst hd; decide
    · exact isDigit_ne d _ hd (by decide)
  have h2 : d ≠ '{' := by
    rcases hd with hd | hd
    · subst hd; decide
    · exact isDigit_ne d _ hd (by decide)
  have h3 : d ≠ '[' := by
    rcases hd with hd | hd
    · subst hd; decide
    · exact isDigit_ne d _ hd (by decide)
  have h4 : d = '-' ∨ isDigit d = true := hd
  simp only [parseValue, if_neg h1, if_neg h2, if_neg h3, if_pos h4, h]

theorem parseMembers_cons (depth fuel : Nat) (k r2 r4 : List Char) (v : JValue)
    (hval : parseValue depth fuel (skipSpace r2) = some (v, ',' :: r4)) :
    parseMembers depth (fuel + 1) ('"' :: (escapeString k ++ '"' :: ':' :: r2))
      = (parseMembers depth fuel (skipSpace r4)).map (fun p => ((k, v) :: p.1, p.2)) := by
  have h := unquoteFrom_escapeString k (':' :: r2)
  have hne : (',' : Char) ≠ '}' := by decide
  simp only [parseMembers, if_true, unquoteBody, h, skipSpace_cons ':' r2 (by decide), hval,
    skipSpace_cons ',' r4 (by decide), if_neg hne]
  rcases parseMembers depth fuel (skipSpace r4) with _ | ⟨ms, r5⟩ <;> rfl

theorem parseMembers_last (depth fuel : Nat) (k r2 r4 : List Char) (v : JValue)
    (hval : parseValue depth fuel (skipSpace r2) = some (v, '}' :: r4)) :
    parseMembers depth (fuel + 1) ('"' :: (escapeString k ++ '"' :: ':' :: r2))
      = some ([(k, v)], r4) := by
  have h := unquoteFrom_escapeString k (':' :: r2)
  simp only [parseMembers, if_true, unquoteBody, h, skipSpace_cons ':' r2 (by decide), hval,
    skipSpace_cons '}' r4 (by decide)]

theorem parseMembers_string (depth fuel : Nat) (k s rest : List Char) :
    parseMembers depth (fuel + 2)
        ('"' :: (escapeString k ++ '"' :: ':' :: '"' :: (escapeString s ++ '"' :: ',' :: '"' :: rest)))
      = (parseMembers depth (fuel + 1) ('"' :: rest)).map (fun p => ((k, .string s) :: p.1, p.2)) := by
  have h := parseMembers_cons depth (fuel + 1) k ('"' :: (escapeString s ++ '"' :: ',' :: '"' :: rest))
    ('"' :: rest) (.string s)
    (by rw [skipSpace_cons _ _ (by decide)]; exact parseValue_string depth fuel s _)
  rw [skipSpace_cons _ _ (by decide)] at h
  exact h

theorem parseMembers_number (depth fuel : Nat) (k : List Char) (n : Int) (rest : List Char) :
    parseMembers depth (fuel + 2) ('"' :: (escapeString k ++ '"' :: ':' :: (formatInt n ++ '}' :: rest)))
      = some ([(k, .number (formatInt n))], rest) := by
  apply parseMembers_last
  obtain ⟨d, ds, hf, hd⟩ := formatInt_head n
  have hsp : isSpace d = false := by
    rcases hd with hd | hd
    · subst hd; decide
    · cases hs : isSpace d with
      | false => rfl
      | true =>
        exfalso
        simp only [isSpace, Bool.or_eq_true, decide_eq_true_eq] at hs
        rcases hs with ((hs | hs) | hs) | hs <;> subst hs <;> exact absurd hd (by decide)
  have hsk : skipSpace (formatInt n ++ '}' :: rest) = formatInt n ++ '}' :: rest := by
    rw [hf]; exact skipSpace_cons _ _ hsp
  rw [hsk]
  exact parseValue_number depth fuel n '}' rest (by unfold EndsNumber; decide)

theorem Marshal_data (c : Chat) :
    (Marshal c).data =
      '{' :: '"' :: (escapeString "id".data ++ '"' :: ':' :: '"' :: (escapeString c.ID.data
        ++ '"' :: ',' :: '"' :: (escapeString "from".data ++ '"' :: ':' :: '"' ::
          (escapeString c.From.data
        ++ '"' :: ',' :: '"' :: (escapeString "to".data ++ '"' :: ':' :: '"' ::
          (escapeString c.To.data
        ++ '"' :: ',' :: '"' :: (escapeString "body".data ++ '"' :: ':' :: '"' ::
          (escapeString c.Body.data
        ++ '"' :: ',' :: '"' :: (escapeString "timestamp".data ++ '"' :: ':' ::
          (formatInt c.Timestamp ++ '}' :: [])))))))))) := by
  have h1 : escapeString "id".data = "id".data := by decide
  have h2 : escapeString "from".data = "from".data := by decide
  have h3 : escapeString "to".data = "to".data := by decide
  have h4 : escapeString "body".data = "body".data := by decide
  have h5 : escapeString "timestamp".data = "timestamp".data := by decide
  rw [h1, h2, h3, h4, h5]
  simp [Marshal, quoteString]

theorem parseJSON_Marshal (c : Chat) :
    parseJSON (Marshal c).data = some (.object (chatMembers c)) := by
  have hlen : ∃ m, 2 * (Marshal c).data.length + 2 = m + 7 := ⟨2 * (Marshal c).data.length + 2 - 7, by
    have : 6 ≤ (Marshal c).data.length := by
      rw [Marshal_data]
      simp only [List.length_cons, List.length_append]
      omega
    omega⟩
  obtain ⟨m, hm⟩ := hlen
  unfold parseJSON
  rw [hm, Marshal_data]
  rw [skipSpace_cons _ _ (by decide)]
  have hq : ('{' : Char) ≠ '"' := by decide
  have hb : ('"' : Char) ≠ '}' := by decide
  rw [show m + 7 = (m + 6) + 1 from rfl]
  have hd : 0 < maxNestingDepth := by decide
  simp only [parseValue, if_neg hq, if_true, if_pos hd,
    skipSpace_cons '"' _ (by decide : isSpace '"' = false), if_neg hb]
  rw [show m + 6 = (m + 4) + 2 from rfl, parseMembers_string,
    show m + 4 + 1 = (m + 3) + 2 from rfl, parseMembers_string,
    show m + 3 + 1 = (m + 2) + 2 from rfl, parseMembers_string,
    show m + 2 + 1 = (m + 1) + 2 from rfl, parseMembers_string,
    show m + 1 + 1 = m + 2 from rfl, parseMembers_number]
  simp [skipSpace, chatMembers]

theorem storeMembers_chatMembers (c c0 : Chat) (hts : isInt64 c.Timestamp) :
    storeMembers (chatMembers c) (c0, false) = (c, false) := by
  have h1 : findField "id".data = some .ID := by decide
  have h2 : findField "from".data = some .From := by decide
  have h3 : findField "to".data = some .To := by decide
  have h4 : findField "body".data = some .Body := by decide
  have h5 : findField "timestamp".data = some .Timestamp := by decide
  simp only [chatMembers, storeMembers, h1, h2, h3, h4, h5, storeField,
    parseInt64_formatInt c.Timestamp hts, Bool.or_false]

theorem Unmarshal_Marshal (c c0 : Chat) (hts : isInt64 c.Timestamp) :
    Unmarshal (Marshal c) c0 = (c, none) := by
  simp only [Unmarshal, parseJSON_Marshal, storeMembers_chatMembers c c0 hts]
  rfl

theorem Unmarshal_syntaxError (data : String) (c0 : Chat) (h : parseJSON data.data = none) :
    Unmarshal data c0 = (c0, some .syntaxError) := by
  simp only [Unmarshal, h]

/-! ### The parser never exhausts its bound -/

theorem skipSpace_length (cs : List Char) : (skipSpace cs).length ≤ cs.length := by
  induction cs with
  | nil => simp [skipSpace]
  | cons c cs ih =>
    simp only [skipSpace]
    split
    · simp only [List.length_cons]; omega
    · simp

theorem consChars_some (x : List Char) (r : Option (List Char × List Char)) (s rest : List Char)
    (h : consChars x r = some (s, rest)) : ∃ s2, r = some (s2, rest) := by
  cases r with
  | none => simp [consChars] at h
  | some p =>
    obtain ⟨a, b⟩ := p
    simp only [consChars, Option.some.injEq, Prod.mk.injEq] at h
    exact ⟨a, by rw [h.2]⟩

theorem unquoteFrom_length :
    ∀ (n : Nat) (cs : List Char) (p : Option Nat) (s rest : List Char),
      cs.length ≤ n → unquoteFrom p cs = some (s, rest) → rest.length < cs.length := by
  intro n
  induction n with
  | zero =>
    intro cs p s rest hn h
    have : cs = [] := List.length_eq_zero.mp (by omega)
    subst this
    simp [unquoteFrom] at h
  | succ n ih =>
    intro cs p s rest hn h
    unfold unquoteFrom at h
    split at h
    · cases h
    · rename_i c cs0
      simp only [List.length_cons] at hn ⊢
      split at h
      · simp only [Option.some.injEq, Prod.mk.injEq] at h
        rw [← h.2]; omega
      · split at h
        · split at h
          · cases h
          · rename_i e cs1
            simp only [List.length_cons] at hn ⊢
            split at h
            · split at h
              · rename_i a b c2 d cs2
                simp only [List.length_cons] at hn ⊢
                split at h
                · cases h
                · obtain ⟨s2, h2⟩ := consChars_some _ _ _ _ h
                  have := ih cs2 _ s2 rest (by omega) h2
                  omega
              · cases h
            · split at h
              · obtain ⟨s2, h2⟩ := consChars_some _ _ _ _ h
                have := ih cs1 _ s2 rest (by omega) h2
                omega
              · cases h
        · split at h
          · cases h
          · obtain ⟨s2, h2⟩ := consChars_some _ _ _ _ h
            have := ih cs0 _ s2 rest (by omega) h2
            omega

theorem takeDigits_length (cs : List Char) : (takeDigits cs).2.length ≤ cs.length := by
  induction cs with
  | nil => simp [takeDigits]
  | cons c cs ih =>
    simp only [takeDigits]
    split
    · simp only [List.length_cons]; omega
    · simp

theorem scanIntPart_length (cs lit rest : List Char) (h : scanIntPart cs = some (lit, rest)) :
    rest.length < cs.length := by
  unfold scanIntPart at h
  split at h
  · cases h
  · rename_i c cs0
    split at h
    · simp only [Option.some.injEq, Prod.mk.injEq] at h
      rw [← h.2]; simp
    · split at h
      · simp only [Option.some.injEq, Prod.mk.injEq] at h
        rw [← h.2]
        have := takeDigits_length cs0
        simp only [List.length_cons]; omega
      · cases h

theorem scanFraction_length (cs lit rest : List Char) (h : scanFraction cs = some (lit, rest)) :
    rest.length ≤ cs.length := by
  unfold scanFraction at h
  split at h
  · simp only [Option.some.injEq, Prod.mk.injEq] at h
    rw [← h.2]
  · rename_i c cs0
    split at h
    · split at h
      · cases h
      · simp only [Option.some.injEq, Prod.mk.injEq] at h
        rw [← h.2]
        have := takeDigits_length cs0
        simp only [List.length_cons]; omega
    · simp only [Option.some.injEq, Prod.mk.injEq] at h
      rw [← h.2]

theorem scanExpDigits_length (mark cs lit rest : List Char)
    (h : scanExpDigits mark cs = some (lit, rest)) : rest.length ≤ cs.length := by
  unfold scanExpDigits at h
  split at h
  · cases h
  · simp only [Option.some.injEq, Prod.mk.injEq] at h
    rw [← h.2]
    exact takeDigits_length cs

theorem scanExponent_length (cs lit rest : List Char) (h : scanExponent cs = some (lit, rest)) :
    rest.length ≤ cs.length := by
  unfold scanExponent at h
  split at h
  · simp only [Option.some.injEq, Prod.mk.injEq] at h
    rw [← h.2]
  · rename_i c cs0
    split at h
    · split at h
      · cases h
      · rename_i s cs1
        split at h
        · have := scanExpDigits_length _ _ _ _ h
          simp only [List.length_cons]; omega
        · have := scanExpDigits_length _ _ _ _ h
          simp only [List.length_cons] at this ⊢; omega
    · simp only [Option.some.injEq, Prod.mk.injEq] at h
      rw [← h.2]

theorem scanUnsigned_length (cs lit rest : List Char) (h : scanUnsigned cs = some (lit, rest)) :
    rest.length < cs.length := by
  unfold scanUnsigned at h
  split at h
  · cases h
  · rename_i ip r1 h1
    split at h
    · cases h
    · rename_i fp r2 h2
      split at h
      · cases h
      · rename_i ep r3 h3
        simp only [Option.some.injEq, Prod.mk.injEq] at h
        rw [← h.2]
        have a := scanIntPart_length _ _ _ h1
        have b := scanFraction_length _ _ _ h2
        have c := scanExponent_length _ _ _ h3
        omega

theorem scanNumber_length (cs lit rest : List Char) (h : scanNumber cs = some (lit, rest)) :
    rest.length < cs.length := by
  unfold scanNumber at h
  split at h
  · cases h
  · rename_i c cs0
    split at h
    · split at h
      · rename_i l r hu
        simp only [Option.some.injEq, Prod.mk.injEq] at h
        rw [← h.2]
        have := scanUnsigned_length _ _ _ hu
        simp only [List.length_cons]; omega
      · cases h
    · exact scanUnsigned_length _ _ _ h

theorem scanLiteral_length (cs : List Char) (v : JValue) (rest : List Char)
    (h : scanLiteral cs = some (v, rest)) : rest.length < cs.length := by
  unfold scanLiteral at h
  split at h
  · simp only [Option.some.injEq, Prod.mk.injEq] at h
    rw [← h.2]; simp only [List.length_cons]; omega
  · simp only [Option.some.injEq, Prod.mk.injEq] at h
    rw [← h.2]; simp only [List.length_cons]; omega
  · simp only [Option.some.injEq, Prod.mk.injEq] at h
    rw [← h.2]; simp only [List.length_cons]; omega
  · cases h

theorem parse_length (fuel : Nat) :
    (∀ depth cs v rest, parseValue depth fuel cs = some (v, rest) → rest.length < cs.length) ∧
    (∀ depth cs ms rest, parseMembers depth fuel cs = some (ms, rest) →
      rest.length < cs.length) ∧
    (∀ depth cs es rest, parseElements depth fuel cs = some (es, rest) →
      rest.length < cs.length) := by
  induction fuel with
  | zero =>
    refine ⟨?_, ?_, ?_⟩ <;> intro depth cs a rest h
    · cases cs <;> simp [parseValue] at h
    · cases cs <;> simp [parseMembers] at h
    · cases cs <;> simp [parseElements] at h
  | succ fuel ih =>
    obtain ⟨ihV, ihM, ihE⟩ := ih
    refine ⟨?_, ?_, ?_⟩
    · intro depth cs v rest h
      cases cs with
      | nil => simp [parseValue] at h
      | cons c cs0 =>
        simp only [parseValue] at h
        simp only [List.length_cons]
        split at h
        · split at h
          · rename_i s r hu
            simp only [Option.some.injEq, Prod.mk.injEq] at h
            rw [← h.2]
            have := unquoteFrom_length _ cs0 none s r (le_refl _) hu
            omega
          · cases h
        · split at h
          · split at h
            · split at h
              · cases h
              · rename_i d r hs
                have hl := skipSpace_length cs0
                rw [hs] at hl
                simp only [List.length_cons] at hl
                split at h
                · simp only [Option.some.injEq, Prod.mk.injEq] at h
                  rw [← h.2]; omega
                · split at h
                  · rename_i ms r1 hm
                    simp only [Option.some.injEq, Prod.mk.injEq] at h
                    rw [← h.2]
                    have := ihM _ _ _ _ hm
                    simp only [List.length_cons] at this
                    omega
                  · cases h
            · cases h
          · split at h
            · split at h
              · split at h
                · cases h
                · rename_i d r hs
                  have hl := skipSpace_length cs0
                  rw [hs] at hl
                  simp only [List.length_cons] at hl
                  split at h
                  · simp only [Option.some.injEq, Prod.mk.injEq] at h
                    rw [← h.2]; omega
                  · split at h
                    · rename_i es r1 hm
                      simp only [Option.some.injEq, Prod.mk.injEq] at h
                      rw [← h.2]
                      have := ihE _ _ _ _ hm
                      simp only [List.length_cons] at this
                      omega
                    · cases h
              · cases h
            · split at h
              · split at h
                · rename_i lit r hnum
                  simp only [Option.some.injEq, Prod.mk.injEq] at h
                  rw [← h.2]
                  have := scanNumber_length _ _ _ hnum
                  simp only [List.length_cons] at this
                  exact this
                · cases h
              · have := scanLiteral_length _ _ _ h
                simp only [List.length_cons] at this
                exact this
    · intro depth cs ms rest h
      cases cs with
      | nil => simp [parseMembers] at h
      | cons c cs0 =>
        simp only [parseMembers] at h
        simp only [List.length_cons]
        split at h
        · split at h
          · cases h
          · rename_i key r1 hu
            have h1 := unquoteFrom_length _ cs0 none key r1 (le_refl _) hu
            split at h
            · cases h
            · rename_i colon r2 hs
              have hl := skipSpace_length r1
              rw [hs] at hl
              simp only [List.length_cons] at hl
              split at h
              · split at h
                · cases h
                · rename_i v r3 hv
                  have h3 := ihV _ _ _ _ hv
                  have hl2 := skipSpace_length r2
                  split at h
                  · cases h
                  · rename_i sep r4 hs4
                    have hl4 := skipSpace_length r3
                    rw [hs4] at hl4
                    simp only [List.length_cons] at hl4
                    split at h
                    · simp only [Option.some.injEq, Prod.mk.injEq] at h
                      rw [← h.2]; omega
                    · split at h
                      · split at h
                        · rename_i ms1 r5 hm
                          simp only [Option.some.injEq, Prod.mk.injEq] at h
                          rw [← h.2]
                          have := ihM _ _ _ _ hm
                          have := skipSpace_length r4
                          omega
                        · cases h
                      · cases h
              · cases h
        · cases h
    · intro depth cs es rest h
      simp only [parseElements] at h
      split at h
      · cases h
      · rename_i v r1 hv
        have h1 := ihV _ _ _ _ hv
        split at h
        · cases h
        · rename_i sep r2 hs
          have hl := skipSpace_length r1
          rw [hs] at hl
          simp only [List.length_cons] at hl
          split at h
          · simp only [Option.some.injEq, Prod.mk.injEq] at h
            rw [← h.2]; omega
          · split at h
            · split at h
              · rename_i es1 r3 hm
                simp only [Option.some.injEq, Prod.mk.injEq] at h
                rw [← h.2]
                have := ihE _ _ _ _ hm
                have := skipSpace_length r2
                omega
              · cases h
            · cases h

theorem parse_fuel_step (fuel : Nat) :
    (∀ depth cs, 2 * cs.length + 1 ≤ fuel →
      parseValue depth (fuel + 1) cs = parseValue depth fuel cs) ∧
    (∀ depth cs, 2 * cs.length ≤ fuel →
      parseMembers depth (fuel + 1) cs = parseMembers depth fuel cs) ∧
    (∀ depth cs, 2 * cs.length + 2 ≤ fuel →
      parseElements depth (fuel + 1) cs = parseElements depth fuel cs) := by
  induction fuel with
  | zero =>
    refine ⟨?_, ?_, ?_⟩ <;> intro depth cs h
    · omega
    · have : cs = [] := List.length_eq_zero.mp (by omega)
      subst this
      simp [parseMembers]
    · omega
  | succ fuel ih =>
    obtain ⟨ihV, ihM, ihE⟩ := ih
    refine ⟨?_, ?_, ?_⟩
    · intro depth cs h
      cases cs with
      | nil => simp [parseValue]
      | cons c cs0 =>
        simp only [List.length_cons] at h
        simp only [parseValue]
        by_cases h1 : c = '"'
        · simp only [if_pos h1]
        simp only [if_neg h1]
        by_cases h2 : c = '{'
        · simp only [if_pos h2]
          by_cases hd : depth < maxNestingDepth
          · simp only [if_pos hd]
            have hl := skipSpace_length cs0
            cases hs : skipSpace cs0 with
            | nil => rfl
            | cons d rest =>
              rw [hs] at hl
              simp only [List.length_cons] at hl
              simp only []
              rw [ihM (depth + 1) (d :: rest) (by simp only [List.length_cons]; omega)]
          · simp only [if_neg hd]
        simp only [if_neg h2]
        by_cases h3 : c = '['
        · simp only [if_pos h3]
          by_cases hd : depth < maxNestingDepth
          · simp only [if_pos hd]
            have hl := skipSpace_length cs0
            cases hs : skipSpace cs0 with
            | nil => rfl
            | cons d rest =>
              rw [hs] at hl
              simp only [List.length_cons] at hl
              simp only []
              rw [ihE (depth + 1) (d :: rest) (by simp only [List.length_cons]; omega)]
          · simp only [if_neg hd]
        simp only [if_neg h3]
    · intro depth cs h
      cases cs with
      | nil => simp [parseMembers]
      | cons c cs0 =>
        simp only [List.length_cons] at h
        simp only [parseMembers]
        by_cases h1 : c = '"'
        · simp only [if_pos h1]
          cases hu : unquoteBody cs0 with
          | none => rfl
          | some p =>
            obtain ⟨key, r1⟩ := p
            have hk := unquoteFrom_length _ cs0 none key r1 (le_refl _) hu
            simp only []
            have hl := skipSpace_length r1
            cases hs : skipSpace r1 with
            | nil => rfl
            | cons colon r2 =>
              rw [hs] at hl
              simp only [List.length_cons] at hl
              simp only []
              by_cases hc : colon = ':'
              · simp only [if_pos hc]
                have hl2 := skipSpace_length r2
                rw [ihV depth (skipSpace r2) (by omega)]
                cases hv : parseValue depth fuel (skipSpace r2) with
                | none => rfl
                | some q =>
                  obtain ⟨v, r3⟩ := q
                  have h3 := (parse_length fuel).1 _ _ _ _ hv
                  simp only []
                  have hl3 := skipSpace_length r3
                  cases hs3 : skipSpace r3 with
                  | nil => rfl
                  | cons sep r4 =>
                    rw [hs3] at hl3
                    simp only [List.length_cons] at hl3
                    simp only []
                    have hl4 := skipSpace_length r4
                    rw [ihM depth (skipSpace r4) (by omega)]
              · simp only [if_neg hc]
        · simp only [if_neg h1]
    · intro depth cs h
      rw [parseElements, parseElements]
      rw [ihV depth cs (by omega)]
      cases hv : parseValue depth fuel cs with
      | none => rfl
      | some q =>
        obtain ⟨v, r1⟩ := q
        have h1 := (parse_length fuel).1 _ _ _ _ hv
        simp only []
        have hl := skipSpace_length r1
        cases hs : skipSpace r1 with
        | nil => rfl
        | cons sep r2 =>
          rw [hs] at hl
          simp only [List.length_cons] at hl
          simp only []
          have hl2 := skipSpace_length r2
          rw [ihE depth (skipSpace r2) (by omega)]

theorem parseValue_fuel_stable (depth : Nat) (cs : List Char) (k : Nat) :
    parseValue depth (2 * cs.length + 2 + k) cs = parseValue depth (2 * cs.length + 2) cs := by
  induction k with
  | zero => rfl
  | succ k ih =>
    rw [← ih]
    exact (parse_fuel_step (2 * cs.length + 2 + k)).1 depth cs (by omega)

/-- The result of `parseJSON` does not depend on the bound it passes: any larger bound gives
the same result, so no well-formed input is rejected for lack of it. -/
theorem parseJSON_fuel_independent (data : List Char) (k : Nat) :
    parseValue 0 (2 * data.length + 2 + k) (skipSpace data)
      = parseValue 0 (2 * data.length + 2) (skipSpace data) := by
  have hl := skipSpace_length data
  obtain ⟨j, hj⟩ : ∃ j, 2 * data.length + 2 = 2 * (skipSpace data).length + 2 + j :=
    ⟨2 * data.length - 2 * (skipSpace data).length, by omega⟩
  rw [hj, Nat.add_assoc, parseValue_fuel_stable, parseValue_fuel_stable]

/-! ### The store model -/

theorem lookupKey_storeKey_same {α : Type} (kvs : List (String × α)) (k : String) (v : α) :
    lookupKey (storeKey kvs k v) k = some v := by
  simp [storeKey, lookupKey]

theorem lookupKey_filter_ne {α : Type} (kvs : List (String × α)) (k k2 : String) (h : k2 ≠ k) :
    lookupKey (kvs.filter (fun kv => kv.1 ≠ k)) k2 = lookupKey kvs k2 := by
  induction kvs with
  | nil => rfl
  | cons kv rest ih =>
    obtain ⟨a, b⟩ := kv
    by_cases hk : a = k
    · have hf : decide ((a, b).1 ≠ k) = false := by simp [hk]
      have hk2 : ¬ a = k2 := fun e => h (e.symm.trans hk)
      rw [List.filter_cons_of_neg (by simp [hk]), ih]
      simp only [lookupKey, if_neg hk2]
    · rw [List.filter_cons_of_pos (by simp [hk])]
      by_cases hk2 : a = k2
      · simp only [lookupKey, if_pos hk2]
      · simp only [lookupKey, if_neg hk2, ih]

theorem lookupKey_storeKey_ne {α : Type} (kvs : List (String × α)) (k k2 : String) (v : α)
    (h : k2 ≠ k) : lookupKey (storeKey kvs k v) k2 = lookupKey kvs k2 := by
  have hk : ¬ k = k2 := fun e => h e.symm
  simp only [storeKey, lookupKey, if_neg hk]
  exact lookupKey_filter_ne kvs k k2 h

theorem mem_storeKey {α : Type} (kvs : List (String × α)) (k : String) (v : α) :
    (k, v) ∈ storeKey kvs k v := by
  simp [storeKey]

theorem zset_zadd_same (r : Redis) (key : String) (score : ℚ) (member : String) :
    (r.zadd key score member).zset key = storeKey (r.zset key) member score := by
  simp [Redis.zadd, Redis.zset, lookupKey_storeKey_same]

theorem zset_zadd_ne (r : Redis) (key key2 : String) (score : ℚ) (member : String)
    (h : key2 ≠ key) : (r.zadd key score member).zset key2 = r.zset key2 := by
  simp [Redis.zadd, Redis.zset, lookupKey_storeKey_ne _ _ _ _ h]

theorem contactListZKey_injective (a b : String) (h : contactListZKey a = contactListZKey b) :
    a = b := by
  have h1 := congrArg String.data h
  simp only [contactListZKey, String.data_append] at h1
  exact String.ext (List.append_cancel_left h1)

theorem truncTowardZero_intCast (n : Int) : truncTowardZero (n : ℚ) = n := by
  unfold truncTowardZero
  split <;> simp

theorem int64OfFloat64_intCast (n : Int) (h : isInt64 n) :
    int64OfFloat64 (.finite (n : ℚ)) = n := by
  simp only [int64OfFloat64, truncTowardZero_intCast, h, if_true]

theorem int64OfFloat64_inRange (q : ℚ) (h : isInt64 (truncTowardZero q)) :
    int64OfFloat64 (.finite q) = truncTowardZero q := by
  simp only [int64OfFloat64, h, if_true]

theorem Time.Unix_isInt64 (t : Time) : isInt64 t.Unix := by
  have h := t.nanosInt64
  unfold isInt64 at h ⊢
  unfold Time.Unix
  omega

theorem truncTowardZero_mono {a b : ℚ} (h : a ≤ b) : truncTowardZero a ≤ truncTowardZero b := by
  unfold truncTowardZero
  by_cases ha : 0 ≤ a
  · have hb : 0 ≤ b := le_trans ha h
    rw [if_pos ha, if_pos hb]
    exact Int.floor_mono h
  · rw [if_neg ha]
    by_cases hb : 0 ≤ b
    · rw [if_pos hb]
      have h1 : ⌈a⌉ ≤ 0 := by
        rw [Int.ceil_le]
        push_neg at ha
        exact_mod_cast ha.le
      have h2 : 0 ≤ ⌊b⌋ := Int.floor_nonneg.mpr hb
      omega
    · rw [if_neg hb]
      exact Int.ceil_mono h

theorem DeserialiseContactList_strings (entries : List (String × Float64)) :
    DeserialiseContactList (entries.map fun e => { Score := e.2, Member := .str e.1 })
      = .ok (entries.map fun e => { Username := e.1, LastActivity := int64OfFloat64 e.2 }) := by
  induction entries with
  | nil => rfl
  | cons e es ih =>
    simp only [List.map_cons, DeserialiseContactList, assertString, ih, bind, Except.bind, pure,
      Except.pure]

theorem DeserialiseContactList_finite (entries : List (String × ℚ)) :
    DeserialiseContactList (entries.map fun e => { Score := .finite e.2, Member := .str e.1 })
      = .ok (entries.map fun e =>
          { Username := e.1, LastActivity := int64OfFloat64 (.finite e.2) }) := by
  induction entries with
  | nil => rfl
  | cons e es ih =>
    simp only [List.map_cons, DeserialiseContactList, assertString, ih, bind, Except.bind, pure,
      Except.pure]

theorem FetchContactList_ok (r : Redis) (username : String) :
    FetchContactList r none username
      = .ok ((((r.zset (contactListZKey username)).insertionSort zRevOrder).map
          fun e => { Username := e.1, LastActivity := int64OfFloat64 (.finite e.2) }), none) := by
  simp only [FetchContactList, Redis.zrangeRevWithScores, DeserialiseContactList_finite, bind,
    Except.bind]

theorem FetchContactList_mem (r : Redis) (username member : String) (score : ℚ)
    (h : (member, score) ∈ r.zset (contactListZKey username)) :
    ∃ l, FetchContactList r none username = .ok (l, none) ∧
      ({ Username := member, LastActivity := int64OfFloat64 (.finite score) } : ContactList)
        ∈ l := by
  refine ⟨_, FetchContactList_ok r username, ?_⟩
  rw [List.mem_map]
  exact ⟨(member, score), ((List.perm_insertionSort zRevOrder _).mem_iff).mpr h, rfl⟩

theorem zset_after_CreateChat (r : Redis) (inp : CreateChatInputs) (c : Chat)
    (h1 : inp.setOutcome = none) (h2 : inp.fromOutcome = none) (h3 : inp.toOutcome = none) :
    (c.To, ((if c.From = c.To then inp.toTime.Unix else inp.fromTime.Unix : Int) : ℚ))
        ∈ (CreateChat r inp c).1.zset (contactListZKey c.From) ∧
    (c.From, ((inp.toTime.Unix : Int) : ℚ)) ∈ (CreateChat r inp c).1.zset (contactListZKey c.To) := by
  simp only [CreateChat, h1, h2, h3, UpdateContactList]
  constructor
  · by_cases hab : c.From = c.To
    · rw [if_pos hab, hab, zset_zadd_same]
      exact mem_storeKey _ _ _
    · have hk : contactListZKey c.From ≠ contactListZKey c.To :=
        fun e => hab (contactListZKey_injective _ _ e)
      rw [if_neg hab, zset_zadd_ne _ _ _ _ _ hk]
      have := zset_zadd_same
        { docs := storeKey r.docs (chatKey inp.keyTime) (Marshal c), zsets := r.zsets,
          issued := r.issued ++ [Command.jsonSet (chatKey inp.keyTime) "$" (Marshal c)]
            ++ [Command.zadd (contactListZKey c.From) (inp.fromTime.Unix : ℚ) c.To] }
        (contactListZKey c.From) (inp.fromTime.Unix : ℚ) c.To
      simp only [Redis.zadd, Redis.zset, Redis.jsonSet] at this ⊢
      rw [this]
      exact mem_storeKey _ _ _
  · rw [zset_zadd_same]
    exact mem_storeKey _ _ _

/-! ### `DeserialiseChat` -/

theorem DeserialiseChat_eq_map (docs : List Document) :
    DeserialiseChat docs = docs.map decodeDocument := by
  induction docs with
  | nil => rfl
  | cons d ds ih => simp [DeserialiseChat, ih]

theorem decodeDocument_not_object (doc : Document) (h : isObjectPayload doc.Payload = false) :
    decodeDocument doc = { ID := doc.ID, From := "", To := "", Body := "", Timestamp := 0 } := by
  unfold isObjectPayload at h
  unfold decodeDocument Unmarshal
  split at h
  · cases h
  · rename_i hno
    split
    · rfl
    · rename_i ms heq
      exact absurd heq (hno ms)
    · rfl
    · rfl

/-! ### The query text of `FetchChatBetween`, as the store reads it -/

theorem dropLeading_append (p s : List Char) : dropLeading p (p ++ s) = some s := by
  induction p with
  | nil => cases s <;> rfl
  | cons c cs ih => simp [dropLeading, ih]

theorem splitAtFirst_append (stop : Char) (a rest : List Char) (h : stop ∉ a) :
    splitAtFirst stop (a ++ stop :: rest) = some (a, rest) := by
  induction a with
  | nil => simp [splitAtFirst]
  | cons c cs ih =>
    have hc : c ≠ stop := fun e => h (by simp [e])
    have hcs : stop ∉ cs := fun e => h (by simp [e])
    simp [splitAtFirst, hc, ih hcs]

theorem splitOn_none (sep : Char) (a : List Char) (h : sep ∉ a) : splitOn sep a = [a] := by
  induction a with
  | nil => rfl
  | cons c cs ih =>
    have hc : c ≠ sep := fun e => h (by simp [e])
    have hcs : sep ∉ cs := fun e => h (by simp [e])
    simp [splitOn, hc, ih hcs]

theorem splitOn_two (sep : Char) (a b : List Char) (ha : sep ∉ a) (hb : sep ∉ b) :
    splitOn sep (a ++ sep :: b) = [a, b] := by
  induction a with
  | nil => simp [splitOn, splitOn_none sep b hb]
  | cons c cs ih =>
    have hc : c ≠ sep := fun e => ha (by simp [e])
    have hcs : sep ∉ cs := fun e => ha (by simp [e])
    simp [splitOn, hc, ih hcs]

theorem parseTags_two (u1 u2 : String) (h1 : '|' ∉ u1.data) (h2 : '|' ∉ u2.data)
    (n1 : u1 ≠ "") (n2 : u2 ≠ "") :
    parseTags (u1.data ++ '|' :: u2.data) = some [u1, u2] := by
  have e1 : u1.data ≠ [] := fun e => n1 (String.ext e)
  have e2 : u2.data ≠ [] := fun e => n2 (String.ext e)
  simp [parseTags, splitOn_two '|' _ _ h1 h2, e1, e2]

theorem intOfDigits_chars (neg : Bool) (body : List Char) (n : Int)
    (h : intOfDigits neg body = some n) : body ≠ [] ∧ ∀ c ∈ body, isDigit c = true := by
  unfold intOfDigits at h
  split at h
  · rename_i hb
    exact ⟨hb.1, fun c hc => List.all_eq_true.mp hb.2 c hc⟩
  · cases h

/-- A text `strconv.ParseInt` accepts is a digit or a minus sign followed by digits. -/
theorem parseInt64_chars (s : List Char) (n : Int) (h : parseInt64 s = some n) :
    ∃ c cs, s = c :: cs ∧ (c = '-' ∨ isDigit c = true) ∧ ∀ d ∈ cs, isDigit d = true := by
  cases s with
  | nil => simp [parseInt64] at h
  | cons c cs =>
    refine ⟨c, cs, rfl, ?_⟩
    simp only [parseInt64] at h
    split at h
    · rename_i hc
      exact ⟨Or.inl hc, (intOfDigits_chars _ _ _ h).2⟩
    · have := (intOfDigits_chars _ _ _ h).2
      exact ⟨Or.inr (this c (by simp)), fun d hd => this d (by simp [hd])⟩

theorem parseRangeEnd_decimal (s : List Char) (n : Int) (h : parseInt64 s = some n) :
    parseRangeEnd s = some { value := .num n, exclusive := false } := by
  obtain ⟨c, cs, rfl, hc, hcs⟩ := parseInt64_chars s n h
  have h1 : c ≠ '(' := by
    rcases hc with hc | hc
    · subst hc; decide
    · exact isDigit_ne c _ hc (by decide)
  have k1 : parseInt64 "-inf".data = none := by decide
  have k2 : parseInt64 "inf".data = none := by decide
  have k3 : parseInt64 "+inf".data = none := by decide
  have h2 : c :: cs ≠ "-inf".data := by
    intro e
    rw [e, k1] at h
    cases h
  have h3 : ¬ (c :: cs = "inf".data ∨ c :: cs = "+inf".data) := by
    rintro (e | e)
    · rw [e, k2] at h; cases h
    · rw [e, k3] at h; cases h
  simp only [parseRangeEnd, if_neg h1, parseRangeValue, if_neg h2, if_neg h3, h]

theorem parseRange_decimal (lo hi : List Char) (l h : Int) (hl : parseInt64 lo = some l)
    (hh : parseInt64 hi = some h) :
    parseRange (lo ++ ' ' :: hi)
      = some ({ value := .num l, exclusive := false }, { value := .num h, exclusive := false }) := by
  obtain ⟨c, cs, e1, hc, hcs⟩ := parseInt64_chars lo l hl
  obtain ⟨d, ds, e2, hd, hds⟩ := parseInt64_chars hi h hh
  have nosp : ∀ (x : Char) (xs : List Char), (x = '-' ∨ isDigit x = true) →
      (∀ y ∈ xs, isDigit y = true) → ' ' ∉ x :: xs := by
    intro x xs hx hxs hmem
    rcases List.mem_cons.mp hmem with e | e
    · rcases hx with hx | hx
      · rw [hx] at e; revert e; decide
      · rw [← e] at hx; revert hx; decide
    · have := hxs _ e
      revert this; decide
  have s1 : ' ' ∉ lo := by rw [e1]; exact nosp c cs hc hcs
  have s2 : ' ' ∉ hi := by rw [e2]; exact nosp d ds hd hds
  have n1 : lo ≠ [] := by rw [e1]; simp
  have n2 : hi ≠ [] := by rw [e2]; simp
  simp only [parseRange, splitOn_two ' ' lo hi s1 s2]
  simp [List.filter, n1, n2, parseRangeEnd_decimal lo l hl, parseRangeEnd_decimal hi h hh]

theorem queryText_data (u1 u2 fromTS toTS : String) :
    (queryText u1 u2 fromTS toTS).data
      = "@from:\x7b".data ++ ((u1.data ++ '|' :: u2.data) ++ '}' ::
          (" @to:\x7b".data ++ ((u1.data ++ '|' :: u2.data) ++ '}' ::
            (" @timestamp:[".data ++ ((fromTS.data ++ ' ' :: toTS.data) ++ ']' :: []))))) := by
  simp [queryText, String.data_append]

/-- The store reads the query text of `FetchChatBetween` as the intended filter when the
usernames are non-empty and free of `|` and of the closing brace, and the bounds are
decimal integers. -/
theorem parseQuery_queryText (u1 u2 fromTS toTS : String) (lo hi : Int)
    (h1 : '|' ∉ u1.data ∧ '}' ∉ u1.data ∧ u1 ≠ "")
    (h2 : '|' ∉ u2.data ∧ '}' ∉ u2.data ∧ u2 ≠ "")
    (hlo : parseInt64 fromTS.data = some lo) (hhi : parseInt64 toTS.data = some hi) :
    parseQuery (queryText u1 u2 fromTS toTS)
      = some { fromTags := [u1, u2], toTags := [u1, u2],
               lo := { value := .num lo, exclusive := false },
               hi := { value := .num hi, exclusive := false } } := by
  have hb : '}' ∉ u1.data ++ '|' :: u2.data := by
    intro hm
    rcases List.mem_append.mp hm with e | e
    · exact h1.2.1 e
    · rcases List.mem_cons.mp e with e | e
      · revert e; decide
      · exact h2.2.1 e
  have hr : ']' ∉ fromTS.data ++ ' ' :: toTS.data := by
    obtain ⟨c, cs, e1, hc, hcs⟩ := parseInt64_chars _ _ hlo
    obtain ⟨d, ds, e2, hd, hds⟩ := parseInt64_chars _ _ hhi
    have nob : ∀ (x : Char) (xs : List Char), (x = '-' ∨ isDigit x = true) →
        (∀ y ∈ xs, isDigit y = true) → ']' ∉ x :: xs := by
      intro x xs hx hxs hmem
      rcases List.mem_cons.mp hmem with e | e
      · rcases hx with hx | hx
        · rw [hx] at e; revert e; decide
        · rw [← e] at hx; revert hx; decide
      · have := hxs _ e
        revert this; decide
    intro hm
    rcases List.mem_append.mp hm with e | e
    · rw [e1] at e; exact nob c cs hc hcs e
    · rcases List.mem_cons.mp e with e | e
      · revert e; decide
      · rw [e2] at e; exact nob d ds hd hds e
  simp only [parseQuery, queryText_data, dropLeading_append, splitAtFirst_append _ _ _ hb,
    splitAtFirst_append _ _ _ hr, parseTags_two u1 u2 h1.1 h2.1 h1.2.2 h2.2.2,
    parseRange_decimal _ _ lo hi hlo hhi]

/-! ### `FetchChatBetween` over documents written by `CreateChat` -/

theorem Deserialise_searchResult (total : Int) (rows : List SearchRow) :
    Deserialise (searchResult total rows)
      = .ok (rows.map fun r => { ID := r.id, Payload := r.body, Total := total }) := by
  cases rows with
  | nil => rfl
  | cons r rs =>
    have h := deserialisePairs_rowElems total (r :: rs) []
    simp only [searchResult, rowElems] at h ⊢
    rw [Deserialise_slice_cons]
    simpa using h

theorem indexedFields_Marshal (c : Chat) (hts : isInt64 c.Timestamp) :
    indexedFields (Marshal c) = some (c.From, c.To, c.Timestamp) := by
  have h1 : memberValue "from".data (chatMembers c) = some (.string c.From.data) := by
    simp [memberValue, chatMembers]
  have h2 : memberValue "to".data (chatMembers c) = some (.string c.To.data) := by
    simp [memberValue, chatMembers]
  have h3 : memberValue "timestamp".data (chatMembers c)
      = some (.number (formatInt c.Timestamp)) := by
    simp [memberValue, chatMembers]
  simp only [indexedFields, parseJSON_Marshal, h1, h2, h3, parseInt64_formatInt c.Timestamp hts]

theorem decodeDocument_Marshal (id : String) (c : Chat) (total : Int)
    (hts : isInt64 c.Timestamp) :
    decodeDocument { ID := id, Payload := Marshal c, Total := total }
      = { ID := id, From := c.From, To := c.To, Body := c.Body, Timestamp := c.Timestamp } := by
  simp only [decodeDocument, Unmarshal_Marshal c Chat.zero hts]

theorem searchHits_sorted (r : Redis) (q : ChatQuery) :
    (r.searchHits q).Pairwise (fun a b => docTimestamp b ≤ docTimestamp a) := by
  unfold Redis.searchHits
  exact @List.sorted_insertionSort _ (fun a b : String × String => docTimestamp b ≤ docTimestamp a)
    _ ⟨fun a b => le_total (docTimestamp b) (docTimestamp a)⟩
    ⟨fun _ _ _ hab hbc => le_trans hbc hab⟩ _

theorem mem_searchHits (r : Redis) (q : ChatQuery) (kv : String × String)
    (h : kv ∈ r.searchHits q) : kv ∈ r.docs ∧ q.matchesDoc kv = true := by
  unfold Redis.searchHits at h
  have h1 := ((List.perm_insertionSort _ _).mem_iff).mp h
  exact List.mem_filter.mp h1

/-- What a query the store has read selects: over a store whose documents were written by
`CreateChat`, every chat decoded from the reply has `From` and `To` among the tags of the
query and a `Timestamp` in its range, and the chats are in descending `Timestamp` order. -/
theorem searchReply_selects (r : Redis) (q : ChatQuery)
    (hdocs : ∀ kv ∈ r.docs, ∃ c, isInt64 c.Timestamp ∧ kv.2 = Marshal c) :
    ∃ docs, Deserialise (r.searchReply q) = .ok docs ∧
      (∀ c ∈ DeserialiseChat docs, c.From ∈ q.fromTags ∧ c.To ∈ q.toTags ∧
        q.lo.admitsFrom c.Timestamp = true ∧ q.hi.admitsUpTo c.Timestamp = true) ∧
      ((DeserialiseChat docs).map fun c => c.Timestamp).Sorted (· ≥ ·) := by
  let page := (r.searchHits q).take defaultSearchLimit
  have hpage : ∀ kv ∈ page, kv ∈ r.docs ∧ q.matchesDoc kv = true :=
    fun kv h => mem_searchHits r q kv (List.mem_of_mem_take h)
  have hfields : ∀ kv ∈ page, ∃ c, isInt64 c.Timestamp ∧ kv.2 = Marshal c ∧
      c.From ∈ q.fromTags ∧ c.To ∈ q.toTags ∧ q.lo.admitsFrom c.Timestamp = true ∧
      q.hi.admitsUpTo c.Timestamp = true ∧ docTimestamp kv = c.Timestamp := by
    intro kv hkv
    obtain ⟨hmem, hmatch⟩ := hpage kv hkv
    obtain ⟨c, hts, hc⟩ := hdocs kv hmem
    have hidx := indexedFields_Marshal c hts
    simp only [ChatQuery.matchesDoc, hc, hidx, Bool.and_eq_true, decide_eq_true_eq] at hmatch
    refine ⟨c, hts, hc, hmatch.2.1.1.1, hmatch.2.1.1.2, hmatch.2.1.2, hmatch.2.2, ?_⟩
    simp only [docTimestamp, hc, hidx]
  have hdecode : ∀ kv ∈ page, ∀ c, isInt64 c.Timestamp → kv.2 = Marshal c →
      decodeDocument { ID := kv.1, Payload := kv.2, Total := ((r.searchHits q).length : Int) }
        = { ID := kv.1, From := c.From, To := c.To, Body := c.Body, Timestamp := c.Timestamp } := by
    intro kv _ c hts hc
    rw [hc]
    exact decodeDocument_Marshal _ c _ hts
  have hchats : DeserialiseChat ((page.map searchRowOf).map fun row =>
        ({ ID := row.id, Payload := row.body, Total := ((r.searchHits q).length : Int) }
          : Document))
      = page.map fun kv =>
          decodeDocument ⟨kv.1, kv.2, ((r.searchHits q).length : Int)⟩ := by
    rw [DeserialiseChat_eq_map, List.map_map, List.map_map]
    rfl
  refine ⟨_, Deserialise_searchResult _ _, ?_, ?_⟩
  · intro c hc
    rw [hchats] at hc
    obtain ⟨kv, hkv, rfl⟩ := List.mem_map.mp hc
    obtain ⟨c0, hts, hm, hf, ht, h1, h2, _⟩ := hfields kv hkv
    rw [hdecode kv hkv c0 hts hm]
    exact ⟨hf, ht, h1, h2⟩
  · rw [hchats]
    have hts : (page.map fun kv =>
          decodeDocument ⟨kv.1, kv.2, ((r.searchHits q).length : Int)⟩).map
            (fun c => c.Timestamp)
        = page.map docTimestamp := by
      rw [List.map_map]
      apply List.map_congr_left
      intro kv hkv
      obtain ⟨c0, hts, hm, _, _, _, _, hd⟩ := hfields kv hkv
      simp only [Function.comp, hdecode kv hkv c0 hts hm, hd]
    rw [hts]
    unfold List.Sorted
    rw [List.pairwise_map]
    exact (searchHits_sorted r q).sublist (List.take_sublist _ _)

/-- What the query of `FetchChatBetween` selects: over a store whose documents were written
by `CreateChat`, for usernames that are non-empty and free of `|` and of the closing brace
and for decimal bounds `lo` and `hi`, the call succeeds, every returned chat has `From` and
`To` among the two usernames and `lo <= Timestamp <= hi`, and the returned chats are in
descending `Timestamp` order. -/
theorem FetchChatBetween_selects (r : Redis) (username1 username2 fromTS toTS : String)
    (lo hi : Int)
    (h1 : '|' ∉ username1.data ∧ '}' ∉ username1.data ∧ username1 ≠ "")
    (h2 : '|' ∉ username2.data ∧ '}' ∉ username2.data ∧ username2 ≠ "")
    (hlo : parseInt64 fromTS.data = some lo) (hhi : parseInt64 toTS.data = some hi)
    (hdocs : ∀ kv ∈ r.docs, ∃ c, isInt64 c.Timestamp ∧ kv.2 = Marshal c) :
    ∃ chats, FetchChatBetween r none username1 username2 fromTS toTS = .ok (chats, none) ∧
      (∀ c ∈ chats, (c.From = username1 ∨ c.From = username2) ∧
        (c.To = username1 ∨ c.To = username2) ∧ lo ≤ c.Timestamp ∧ c.Timestamp ≤ hi) ∧
      (chats.map fun c => c.Timestamp).Sorted (· ≥ ·) := by
  have hq := parseQuery_queryText username1 username2 fromTS toTS lo hi h1 h2 hlo hhi
  obtain ⟨docs, hd, hsel, hsorted⟩ := searchReply_selects r
    { fromTags := [username1, username2], toTags := [username1, username2],
      lo := { value := .num lo, exclusive := false },
      hi := { value := .num hi, exclusive := false } } hdocs
  refine ⟨DeserialiseChat docs, ?_, ?_, hsorted⟩
  · simp only [FetchChatBetween, Redis.ftSearch, chatIndex, if_true, hq, hd, bind, Except.bind]
  · intro c hc
    obtain ⟨hf, ht, hl, hh⟩ := hsel c hc
    simp only [List.mem_cons, List.mem_singleton, List.not_mem_nil, or_false] at hf ht
    simp only [RangeEnd.admitsFrom, RangeEnd.admitsUpTo, Bool.false_eq_true, if_false,
      decide_eq_true_eq] at hl hh
    exact ⟨hf, ht, hl, hh⟩

/-! ### C1 and C2: `Deserialise` on well-formed and on malformed results -/

/-- C1: on a search result of the well-formed shape `[total, id_1, fields_1, ..., id_k,
fields_k]` with `k >= 1`, every `id_i` a string and every `fields_i` a sequence ending in a
string, `Deserialise` returns (without panic) exactly one `Document` per pair, in the order
of the pairs, the i-th with `ID = id_i`, `Payload` = the last element of `fields_i` and
`Total = total`. -/
theorem Deserialise_wellFormed (total : Int) (rows : List SearchRow) (hk : 1 ≤ rows.length) :
    Deserialise (searchResult total rows)
      = .ok (rows.map fun r => { ID := r.id, Payload := r.body, Total := total }) ∧
    (rows.map fun r => ({ ID := r.id, Payload := r.body, Total := total } : Document)).length
      = rows.length := by
  refine ⟨?_, by simp⟩
  match rows, hk with
  | r :: rs, _ =>
    have h := deserialisePairs_rowElems total (r :: rs) []
    simp only [searchResult, rowElems] at h ⊢
    rw [Deserialise_slice_cons]
    simpa using h

theorem Deserialise_wellFormed_witness :
    1 ≤ [(⟨"chat#1", [.str "$"], "x"⟩ : SearchRow)].length ∧
    (Deserialise (searchResult 7 [⟨"chat#1", [.str "$"], "x"⟩])
      = .ok ([(⟨"chat#1", [.str "$"], "x"⟩ : SearchRow)].map
          fun r => { ID := r.id, Payload := r.body, Total := 7 }) ∧
    ([(⟨"chat#1", [.str "$"], "x"⟩ : SearchRow)].map
        fun r => ({ ID := r.id, Payload := r.body, Total := 7 } : Document)).length
      = [(⟨"chat#1", [.str "$"], "x"⟩ : SearchRow)].length) :=
  ⟨by decide, Deserialise_wellFormed 7 [⟨"chat#1", [.str "$"], "x"⟩] (by decide)⟩

/-- C2 fails as stated: each of these raw results lacks the well-formed shape, and on each
of them `Deserialise` panics instead of returning an empty result: a document id with no
field array after it, a non-string id, a first element that is not an `int64`, an empty
field array, a field array that is not a sequence, and a field array whose last element is
not a string. -/
theorem Deserialise_malformed_faults :
    (wellFormedShape (.slice [.int64 1, .str "chat#1"]) = false ∧
      Deserialise (.slice [.int64 1, .str "chat#1"]) = .error .indexOutOfRange) ∧
    (wellFormedShape (.slice [.int64 1, .int64 5, .slice [.str "$", .str "x"]]) = false ∧
      Deserialise (.slice [.int64 1, .int64 5, .slice [.str "$", .str "x"]])
        = .error .typeAssertion) ∧
    (wellFormedShape (.slice [.str "1", .str "chat#1", .slice [.str "$", .str "x"]]) = false ∧
      Deserialise (.slice [.str "1", .str "chat#1", .slice [.str "$", .str "x"]])
        = .error .typeAssertion) ∧
    (wellFormedShape (.slice [.int64 1, .str "chat#1", .slice []]) = false ∧
      Deserialise (.slice [.int64 1, .str "chat#1", .slice []]) = .error .indexOutOfRange) ∧
    (wellFormedShape (.slice [.int64 1, .str "chat#1", .str "x"]) = false ∧
      Deserialise (.slice [.int64 1, .str "chat#1", .str "x"]) = .error .typeAssertion) ∧
    (wellFormedShape (.slice [.int64 1, .str "chat#1", .slice [.str "$", .int64 3]]) = false ∧
      Deserialise (.slice [.int64 1, .str "chat#1", .slice [.str "$", .int64 3]])
        = .error .typeAssertion) := by
  decide

/-- C2 as amended: a raw result without the well-formed shape yields the empty result,
without panic, when it is not a sequence or is a sequence of at most one element; every
other raw result without the well-formed shape makes `Deserialise` panic. -/
theorem Deserialise_malformed (res : GoAny) (h : wellFormedShape res = false) :
    (shortOrNotSlice res = true → Deserialise res = .ok []) ∧
    (shortOrNotSlice res = false → ∃ p, Deserialise res = .error p) := by
  constructor
  · intro hs
    cases res with
    | slice xs =>
      have : ¬ xs.length > 1 := by simpa [shortOrNotSlice] using hs
      simp [Deserialise, this]
    | _ => rfl
  · intro hs
    cases res with
    | slice xs =>
      match xs, hs, h with
      | [], hs, _ => simp [shortOrNotSlice] at hs
      | [_], hs, _ => simp [shortOrNotSlice] at hs
      | hd :: id :: rest, _, h =>
        rw [Deserialise_slice_cons]
        by_cases hhd : ∃ n, hd = .int64 n
        · obtain ⟨n, rfl⟩ := hhd
          exact pairsShape_false_fault _ _ _ (by simpa [wellFormedShape] using h)
        · cases rest with
          | nil => exact ⟨.indexOutOfRange, by simp [deserialisePairs]⟩
          | cons fields rest =>
            exact not_int64_fault hd id fields rest [] (fun n hn => hhd ⟨n, hn⟩)
    | _ => simp [shortOrNotSlice] at hs

theorem Deserialise_malformed_witness :
    wellFormedShape (.slice [.int64 1, .str "chat#1"]) = false ∧
    ((shortOrNotSlice (.slice [.int64 1, .str "chat#1"]) = true →
        Deserialise (.slice [.int64 1, .str "chat#1"]) = .ok []) ∧
     (shortOrNotSlice (.slice [.int64 1, .str "chat#1"]) = false →
        ∃ p, Deserialise (.slice [.int64 1, .str "chat#1"]) = .error p)) :=
  ⟨by decide, Deserialise_malformed (.slice [.int64 1, .str "chat#1"]) (by decide)⟩

/-! ### C3: round trip -/

/-- C3: round trip. For every `Chat` `c` (its `Timestamp` an `int64`) and every identifier
`id`, the JSON text `CreateChat` writes for `c`, wrapped as the search result
`[1, id, ["$", json(c)]]` and decoded by `Deserialise` followed by `DeserialiseChat`, gives
exactly one `Chat`, whose `From`, `To`, `Body` and `Timestamp` are those of `c` and whose
`ID` is `id`. -/
theorem roundTrip_CreateChat_FetchChatBetween (c : Chat) (id : String)
    (hts : isInt64 c.Timestamp) :
    ∃ docs, Deserialise (singleResult id c) = .ok docs ∧
      DeserialiseChat docs
        = [{ ID := id, From := c.From, To := c.To, Body := c.Body, Timestamp := c.Timestamp }] := by
  refine ⟨[{ ID := id, Payload := Marshal c, Total := 1 }], ?_, ?_⟩
  · have h := deserialisePairs_rowElems 1
      [{ id := id, fieldsInit := [.str "$"], body := Marshal c }] []
    simp only [singleResult, searchResult, rowElems] at h ⊢
    rw [Deserialise_slice_cons]
    simpa using h
  · simp only [DeserialiseChat, decodeDocument, Unmarshal_Marshal c Chat.zero hts]

theorem roundTrip_CreateChat_FetchChatBetween_witness :
    isInt64 chatAliceBob.Timestamp ∧
    ∃ docs, Deserialise (singleResult "chat#1700000000123" chatAliceBob) = .ok docs ∧
      DeserialiseChat docs
        = [{ ID := "chat#1700000000123", From := chatAliceBob.From, To := chatAliceBob.To,
             Body := chatAliceBob.Body, Timestamp := chatAliceBob.Timestamp }] :=
  ⟨by decide,
   roundTrip_CreateChat_FetchChatBetween chatAliceBob "chat#1700000000123" (by decide)⟩

/-! ### C4: contact lists after `CreateChat` -/

/-- C4 fails as stated: with the clock at 1700000000.123 s, `CreateChat` of a chat from
alice to bob with `Timestamp` 1000 succeeds, both contact-list updates succeed, and
afterwards the contact list of alice is exactly the entry for bob with `LastActivity`
1700000000; it has no entry for bob with `LastActivity` equal to the `Timestamp` 1000 of the
chat. -/
theorem contactList_not_chat_timestamp :
    (CreateChat Redis.empty allSucceed chatAliceBob).2 = ("chat#1700000000123", none) ∧
    FetchContactList (CreateChat Redis.empty allSucceed chatAliceBob).1 none "alice"
      = .ok ([{ Username := "bob", LastActivity := 1700000000 }], none) ∧
    ({ Username := "bob", LastActivity := chatAliceBob.Timestamp } : ContactList)
      ∉ [({ Username := "bob", LastActivity := 1700000000 } : ContactList)] := by
  decide

/-- C4 as amended: after `CreateChat` of a chat from `A` to `B` succeeds with both
contact-list updates succeeding, `FetchContactList(A)` contains an entry with
`Username = B` whose `LastActivity` is the Unix-seconds clock reading taken by the
contact-list update that wrote it (the first update, or the second when `A = B`), and
`FetchContactList(B)` contains an entry with `Username = A` whose `LastActivity` is the
Unix-seconds clock reading taken by the second update; the `Timestamp` of the chat plays no
part. -/
theorem contactList_after_CreateChat (r : Redis) (inp : CreateChatInputs) (c : Chat)
    (hset : inp.setOutcome = none) (hfrom : inp.fromOutcome = none)
    (hto : inp.toOutcome = none) :
    (∃ l, FetchContactList (CreateChat r inp c).1 none c.From = .ok (l, none) ∧
      ({ Username := c.To,
         LastActivity := if c.From = c.To then inp.toTime.Unix else inp.fromTime.Unix }
        : ContactList) ∈ l) ∧
    (∃ l, FetchContactList (CreateChat r inp c).1 none c.To = .ok (l, none) ∧
      ({ Username := c.From, LastActivity := inp.toTime.Unix } : ContactList) ∈ l) := by
  obtain ⟨h1, h2⟩ := zset_after_CreateChat r inp c hset hfrom hto
  constructor
  · obtain ⟨l, hl, hm⟩ := FetchContactList_mem _ _ _ _ h1
    have hr : isInt64 (if c.From = c.To then inp.toTime.Unix else inp.fromTime.Unix) := by
      split
      · exact Time.Unix_isInt64 _
      · exact Time.Unix_isInt64 _
    rw [int64OfFloat64_intCast _ hr] at hm
    exact ⟨l, hl, hm⟩
  · obtain ⟨l, hl, hm⟩ := FetchContactList_mem _ _ _ _ h2
    rw [int64OfFloat64_intCast _ (Time.Unix_isInt64 _)] at hm
    exact ⟨l, hl, hm⟩

theorem contactList_after_CreateChat_witness :
    (allSucceed.setOutcome = none ∧ allSucceed.fromOutcome = none ∧
      allSucceed.toOutcome = none) ∧
    (∃ l, FetchContactList (CreateChat Redis.empty allSucceed chatAliceBob).1 none
          chatAliceBob.From = .ok (l, none) ∧
      ({ Username := chatAliceBob.To,
         LastActivity := if chatAliceBob.From = chatAliceBob.To then allSucceed.toTime.Unix
           else allSucceed.fromTime.Unix } : ContactList) ∈ l) ∧
    (∃ l, FetchContactList (CreateChat Redis.empty allSucceed chatAliceBob).1 none
          chatAliceBob.To = .ok (l, none) ∧
      ({ Username := chatAliceBob.From, LastActivity := allSucceed.toTime.Unix }
        : ContactList) ∈ l) :=
  ⟨⟨rfl, rfl, rfl⟩,
   contactList_after_CreateChat Redis.empty allSucceed chatAliceBob rfl rfl rfl⟩

/-! ### C5: identifiers of two calls in one millisecond -/

/-- C5 (code defect): two successful `CreateChat` calls, one after the other, whose clock
readings at `chatKey()` fall in the same millisecond return the same identifier, and the
second call replaces the document the first call wrote: after the first call the store holds
the first chat under that identifier, after the second call it holds only the second chat
there. -/
theorem CreateChat_same_millisecond_overwrites :
    (CreateChat Redis.empty allSucceed chatAliceBob).2 = ("chat#1700000000123", none) ∧
    (CreateChat (CreateChat Redis.empty allSucceed chatAliceBob).1 allSucceedSameMilli
        chatCarolDave).2 = ("chat#1700000000123", none) ∧
    (CreateChat Redis.empty allSucceed chatAliceBob).1.docs
      = [("chat#1700000000123", Marshal chatAliceBob)] ∧
    (CreateChat (CreateChat Redis.empty allSucceed chatAliceBob).1 allSucceedSameMilli
        chatCarolDave).1.docs = [("chat#1700000000123", Marshal chatCarolDave)] ∧
    Marshal chatAliceBob ≠ Marshal chatCarolDave := by
  decide

/-! ### C6: what `FetchChatBetween` returns -/

/-- C6 (code defect): after a chat from alice to alice with `Timestamp` 1000 is stored,
`FetchChatBetween("alice", "bob", "0", "2000")` returns that chat, although its pair
`{From, To}` is `{alice}` and not `{alice, bob}`: the query only asks that `from` and `to`
each be one of the two usernames. -/
theorem FetchChatBetween_returns_self_chat :
    FetchChatBetween (CreateChat Redis.empty allSucceed chatAliceAlice).1 none
        "alice" "bob" "0" "2000"
      = .ok ([{ ID := "chat#1700000000123", From := "alice", To := "alice", Body := "note",
                Timestamp := 1000 }], none) := by
  decide

/-! ### C7: the result of `CreateChat` -/

/-- C7: `CreateChat` returns the generated chat key together with no error exactly when the
document write succeeds, whatever the outcomes of the two contact-list updates (the inputs
leave them arbitrary; both updates are then issued); when the document write fails it
returns the empty identifier together with that error, and the write is the only command it
issues: no contact-list update is sent and no sorted set changes. -/
theorem CreateChat_result (r : Redis) (inp : CreateChatInputs) (c : Chat) :
    ((CreateChat r inp c).2 = (chatKey inp.keyTime, none) ↔ inp.setOutcome = none) ∧
    (inp.setOutcome = none →
      (CreateChat r inp c).1.issued
        = r.issued ++
            [.jsonSet (chatKey inp.keyTime) "$" (Marshal c),
             .zadd (contactListZKey c.From) (inp.fromTime.Unix : ℚ) c.To,
             .zadd (contactListZKey c.To) (inp.toTime.Unix : ℚ) c.From]) ∧
    (∀ err, inp.setOutcome = some err →
      (CreateChat r inp c).2 = ("", some err) ∧
      (CreateChat r inp c).1.issued
        = r.issued ++ [.jsonSet (chatKey inp.keyTime) "$" (Marshal c)] ∧
      (CreateChat r inp c).1.zsets = r.zsets) := by
  obtain ⟨keyTime, setOutcome, fromTime, fromOutcome, toTime, toOutcome⟩ := inp
  refine ⟨?_, ?_, ?_⟩
  · cases setOutcome with
    | none => simp [CreateChat]
    | some err => simp [CreateChat]
  · intro h
    simp only at h
    subst h
    cases fromOutcome <;> cases toOutcome <;>
      simp [CreateChat, UpdateContactList, Redis.zadd, Redis.jsonSet]
  · intro err h
    simp only at h
    subst h
    exact ⟨rfl, rfl, rfl⟩

theorem CreateChat_result_witness :
    (updatesFail.setOutcome = none ∧
      (CreateChat Redis.empty updatesFail chatAliceBob).2 = (chatKey updatesFail.keyTime, none)) ∧
    (writeFails.setOutcome = some { message := "connection lost" } ∧
      (CreateChat Redis.empty writeFails chatAliceBob).2
        = ("", some { message := "connection lost" }) ∧
      (CreateChat Redis.empty writeFails chatAliceBob).1.issued
        = Redis.empty.issued ++ [.jsonSet (chatKey writeFails.keyTime) "$" (Marshal chatAliceBob)] ∧
      (CreateChat Redis.empty writeFails chatAliceBob).1.zsets = Redis.empty.zsets) :=
  ⟨⟨rfl, (CreateChat_result Redis.empty updatesFail chatAliceBob).1.mpr rfl⟩,
   ⟨rfl, (CreateChat_result Redis.empty writeFails chatAliceBob).2.2 _ rfl⟩⟩

/-! ### C8: the origin check -/

/-- C8 (code defect): a request whose `Origin` header is `http://evil.example`, not the
configured origin, is accepted by `CheckOrigin` when its host is `localhost:8080`. -/
theorem CheckOrigin_accepts_other_origin :
    headerGet foreignRequest.Header "Origin" = "http://evil.example" ∧
    headerGet foreignRequest.Header "Origin" ≠ "http://localhost:8080" ∧
    CheckOrigin foreignRequest = true := by
  decide

/-! ### C9 and C10: `DeserialiseChat` and `DeserialiseContactList` -/

/-- C9 fails as stated: the payload `{"from":"alice","timestamp":"x"}` fails to parse as a
`Chat` (`json.Unmarshal` returns a type error, because the `timestamp` member is a string),
yet the `Chat` built from it has `From = "alice"`, not the zero value. -/
theorem DeserialiseChat_keeps_decoded_members :
    (Unmarshal payloadWrongType Chat.zero).2 = some .unmarshalTypeError ∧
    DeserialiseChat [{ ID := "chat#1", Payload := payloadWrongType, Total := 1 }]
      = [{ ID := "chat#1", From := "alice", To := "", Body := "", Timestamp := 0 }] := by
  decide

/-- C9 as amended: `DeserialiseChat` returns exactly one `Chat` per `Document`, in the same
order, the i-th with the `ID` of the i-th `Document` and decoded from the i-th payload
alone; and for every `Document` whose `Payload` is not a well-formed JSON object (it is not
well-formed JSON, or it is JSON of another kind), the `Chat` has `From`, `To`, `Body` and
`Timestamp` at their zero values. -/
theorem DeserialiseChat_spec (docs : List Document) :
    DeserialiseChat docs = docs.map decodeDocument ∧
    (DeserialiseChat docs).length = docs.length ∧
    (DeserialiseChat docs).map (fun c => c.ID) = docs.map (fun d => d.ID) ∧
    (∀ doc ∈ docs, isObjectPayload doc.Payload = false →
      decodeDocument doc = { ID := doc.ID, From := "", To := "", Body := "", Timestamp := 0 }) := by
  refine ⟨DeserialiseChat_eq_map docs, ?_, ?_, ?_⟩
  · simp [DeserialiseChat_eq_map]
  · simp [DeserialiseChat_eq_map, decodeDocument]
  · intro doc _ h
    exact decodeDocument_not_object doc h

theorem DeserialiseChat_spec_witness :
    isObjectPayload "not json" = false ∧
    decodeDocument { ID := "chat#1", Payload := "not json", Total := 2 }
      = { ID := "chat#1", From := "", To := "", Body := "", Timestamp := 0 } :=
  ⟨by decide,
   (DeserialiseChat_spec
      [{ ID := "chat#1", Payload := "not json", Total := 2 },
       { ID := "chat#2", Payload := Marshal chatAliceBob, Total := 2 }]).2.2.2
      { ID := "chat#1", Payload := "not json", Total := 2 } (by simp) (by decide)⟩

/-- C10 fails as stated: for the entries `[("bob", 1e19), ("carol", 5)]`, whose members are
strings and whose scores are in descending order, `DeserialiseContactList` returns for bob
the `LastActivity` -9223372036854775808, which is not the score truncated to an integer
(no `int64` is: the truncated score is out of range), and the returned list is not sorted
by `LastActivity` descending. -/
theorem DeserialiseContactList_out_of_range :
    DeserialiseContactList contactsOutOfRange
      = .ok [{ Username := "bob", LastActivity := -9223372036854775808 },
             { Username := "carol", LastActivity := 5 }] ∧
    truncTowardZero 10000000000000000000 = 10000000000000000000 ∧
    ¬ isInt64 (truncTowardZero 10000000000000000000) ∧
    (contactsOutOfRange.map fun z => z.Score).Pairwise (fun a b => Float64.le b a = true) ∧
    ¬ ([-9223372036854775808, 5] : List Int).Sorted (· ≥ ·) := by
  decide

/-- C10 as amended: for every sequence of (member, score) pairs whose members are strings,
`DeserialiseContactList` returns, without panic, the list of the same length and order whose
i-th entry has the i-th member as `Username` and `int64` of the i-th score as
`LastActivity`; that is the score truncated to an integer whenever the score is finite and
the truncated value is in the `int64` range; hence when every score is such and the scores
are in descending order, the list is sorted by `LastActivity` descending. And for an input
with a member that is not a string, `DeserialiseContactList` panics. -/
theorem DeserialiseContactList_spec (entries : List (String × Float64)) :
    DeserialiseContactList (entries.map fun e => { Score := e.2, Member := .str e.1 })
      = .ok (entries.map fun e => { Username := e.1, LastActivity := int64OfFloat64 e.2 }) ∧
    (∀ q : ℚ, isInt64 (truncTowardZero q) → int64OfFloat64 (.finite q) = truncTowardZero q) ∧
    ((∀ e ∈ entries, scoreInRange e.2 = true) →
      (entries.map fun e => e.2).Pairwise (fun a b => Float64.le b a = true) →
      ((entries.map fun e =>
          ({ Username := e.1, LastActivity := int64OfFloat64 e.2 } : ContactList)).map
        fun c => c.LastActivity).Sorted (· ≥ ·)) ∧
    DeserialiseContactList [{ Score := .finite 1700000000, Member := .int64 7 }]
      = .error .typeAssertion := by
  refine ⟨DeserialiseContactList_strings entries, int64OfFloat64_inRange, ?_, by decide⟩
  intro hrange h
  simp only [List.map_map]
  unfold List.Sorted
  rw [List.pairwise_map] at h ⊢
  refine h.imp_of_mem ?_
  intro a b ha hb hab
  have ra := hrange a ha
  have rb := hrange b hb
  obtain ⟨an, x⟩ := a
  obtain ⟨bn, y⟩ := b
  cases x <;> cases y <;> simp only [scoreInRange, Bool.false_eq_true] at ra rb
  rename_i p q
  simp only [decide_eq_true_eq] at ra rb
  simp only [Float64.le, decide_eq_true_eq] at hab
  simp only [Function.comp, int64OfFloat64, ra, rb, if_true]
  exact truncTowardZero_mono hab

theorem DeserialiseContactList_spec_witness :
    ((∀ e ∈ contactsInRange, scoreInRange e.2 = true) ∧
      (contactsInRange.map fun e => e.2).Pairwise (fun a b => Float64.le b a = true)) ∧
    ((contactsInRange.map fun e =>
          ({ Username := e.1, LastActivity := int64OfFloat64 e.2 } : ContactList)).map
        fun c => c.LastActivity).Sorted (· ≥ ·) :=
  ⟨⟨by decide, by decide⟩,
   (DeserialiseContactList_spec contactsInRange).2.2.1 (by decide) (by decide)⟩

end ChatApp
